import Mathlib

/-!
Verification of the potionality quiz engine: score accumulation, condition
evaluation, result resolution, and the URL share-state codec.

The TypeScript source (src/utils/… modules of the repository) is shallowly
embedded here.  JavaScript objects keyed by strings are modelled as
insertion-ordered association lists (JS string-keyed objects preserve
insertion order; the dimension ids used by the app are not array-index
strings).  JS numbers that the engine manipulates are integers throughout
(weights, scores, priorities come from JSON configuration as integers and
every arithmetic operation in the engine preserves integrality), so they are
modelled as `Int`; the defensive `Number.isFinite` checks in the source are
modelled by the type `JsNum` which adjoins a non-finite element.
JS functions that can throw are modelled as `Option`-returning functions
(`none` = exception), and browser built-ins (`btoa`, `atob`, `JSON.parse`,
`JSON.stringify`, `decodeURIComponent`) are modelled from their standard
semantics on the fragment the application exercises (JSON numbers are
integers here, matching every payload the codec produces).
-/

/-- A JS `number` as seen by the engine's defensive checks: either a finite
integer or a non-finite value (`NaN`, `±Infinity`).  `Number.isFinite` is a
match on the constructor. -/
inductive JsNum where
  | num (i : Int)
  | nan
deriving DecidableEq, Repr

/-- `Number.isFinite(x) ? x : 0` for a `JsNum`. -/
def JsNum.finiteOr0 : JsNum → Int
  | .num i => i
  | .nan => 0

/-- Score vector: JS object dimension-id → number, as an insertion-ordered
association list (source type `ScoreMap = Record<string, number>`). -/
abbrev ScoreMap := List (String × Int)

/-- `scoreMap[d] ?? 0` (and `scoreMap[d] || 0`, which coincides with it on
integer values since the only falsy integer is `0` itself). -/
def sGet (s : ScoreMap) (d : String) : Int :=
  (List.lookup d s).getD 0

/-- Source: `clamp(value, min = -24, max = 24)` in `src/utils/scoring.ts`:
`Math.max(min, Math.min(max, value))`. -/
def clamp (value : Int) (min : Int := -24) (max : Int := 24) : Int :=
  Max.max min (Min.min max value)

/-- Source `Dimension` interface (`id, label, left, right, description?`). -/
structure Dimension where
  id : String
  label : String := ""
  left : String := ""
  right : String := ""
  description : Option String := none
deriving DecidableEq, Repr

/-- Source: `createInitialScores(dimensions)` — every dimension id mapped
to 0, in dimension order. -/
def createInitialScores (dimensions : List Dimension) : ScoreMap :=
  dimensions.map (fun dim => (dim.id, 0))

/-- Source: `normalizeScoresForDimensions(input, dimensions, min = -20, max = 20)`.
For each configured dimension: `Number(input?.[dim.id])` — a missing key (or a
`null` input) reads as `NaN`; a finite value is `Math.round`ed (identity on the
integers modelled here) and clamped, a non-finite one becomes `0`. -/
def normalizeScoresForDimensions (input : Option (List (String × JsNum)))
    (dimensions : List Dimension) (min : Int := -20) (max : Int := 20) : ScoreMap :=
  dimensions.map (fun dim =>
    (dim.id,
      match input with
      | none => 0
      | some m =>
        match List.lookup dim.id m with
        | some (.num v) => clamp v min max
        | some .nan => 0
        | none => 0))

/-- Stable insertion of `x` into a list already sorted descending by `key`:
`x` goes in front of the first element whose key is not greater than `x`'s.
Models the placement a JS stable `sort` gives an element relative to
later-listed elements of equal key. -/
def insertDesc (key : String × Int → Int) (x : String × Int) :
    List (String × Int) → List (String × Int)
  | [] => [x]
  | y :: ys => if key y > key x then y :: insertDesc key x ys else x :: y :: ys

/-- Stable sort, descending by `key`; ties keep the original (insertion)
order.  This is the unique output of the JS stable `Array.prototype.sort`
with comparator `(a, b) => key(b) - key(a)`. -/
def sortDescBy (key : String × Int → Int) : List (String × Int) → List (String × Int)
  | [] => []
  | x :: xs => insertDesc key x (sortDescBy key xs)

/-- Source: `getSortedScores(scoreMap)` — entries sorted by value descending
(`(a, b) => b.value - a.value`, a stable sort). -/
def getSortedScores (scoreMap : ScoreMap) : List (String × Int) :=
  sortDescBy (fun e => e.2) scoreMap

/-- First entry of the list attaining the maximal `key`: the element a stable
descending sort puts at rank 1.  Used to state the tie-break properties. -/
def firstMaxBy (key : String × Int → Int) : List (String × Int) → Option (String × Int)
  | [] => none
  | x :: xs =>
    match firstMaxBy key xs with
    | none => some x
    | some m => if key x ≥ key m then some x else some m

/-- Source `ResultCondition` interface: all fields optional. -/
structure ResultCondition where
  type : Option String := none
  dim : Option String := none
  op : Option String := none
  value : Option Int := none
  min : Option Int := none
  max : Option Int := none
  a : Option String := none
  b : Option String := none
  rank : Option Int := none
  dims : Option (List String) := none
deriving DecidableEq, Repr

/-- JS truthiness of a `string | undefined` value: `undefined` and `""` are
falsy, every other string is truthy. -/
def strTruthy : Option String → Bool
  | some s => !(s == "")
  | none => false

/-- `Object.values(scoreMap).reduce((sum, val) => sum + val, 0)`. -/
def totalOf (s : ScoreMap) : Int :=
  (s.map (fun e => e.2)).foldl (fun acc v => acc + v) 0

/-- `Math.max(...values)` on a nonempty list (callers guard emptiness). -/
def listMax : List Int → Int
  | [] => 0
  | x :: xs => xs.foldl Max.max x

/-- `Math.min(...values)` on a nonempty list (callers guard emptiness). -/
def listMin : List Int → Int
  | [] => 0
  | x :: xs => xs.foldl Min.min x

/-- Source: `meetsCondition(cond, scoreMap)` in the results module.  A direct
transcription: the legacy dialect fires when `cond.dim` is truthy and
`cond.type` falsy; otherwise the `switch (type)` if-chain, whose `default`
branch returns `true` (fail open).  `cond.dim || "calm"`, `cond.value ?? 0`,
`Math.max(1, Number(cond.rank) || 1)` and the `?.`/`??` accesses are modelled
with their exact truthiness/nullish semantics. -/
def meetsCondition (cond : Option ResultCondition) (scoreMap : ScoreMap) : Bool :=
  match cond with
  | none => true
  | some c =>
    if strTruthy c.dim && !strTruthy c.type then
      -- legacy dialect: `cond.dim && !cond.type`
      let value := sGet scoreMap (c.dim.getD "")
      if c.min.isSome || c.max.isSome then
        (match c.min with | some m => decide (value ≥ m) | none => true) &&
        (match c.max with | some m => decide (value ≤ m) | none => true)
      else
        let op := match c.op with | some o => if o == "" then "gte" else o | none => "gte"
        let target := c.value.getD 0
        if op == "gt" then decide (value > target)
        else if op == "lt" then decide (value < target)
        else if op == "lte" then decide (value ≤ target)
        else if op == "eq" then value == target
        else decide (value ≥ target)
    else
      let dim := match c.dim with | some d => if d == "" then "calm" else d | none => "calm"
      let value := c.value.getD 0
      if c.type == some "min" then decide (sGet scoreMap dim ≥ value)
      else if c.type == some "max_le" then decide (sGet scoreMap dim ≤ value)
      else if c.type == some "max_ge" then decide (sGet scoreMap dim ≥ value)
      else if c.type == some "diff_greater" then
        if !(strTruthy c.a && strTruthy c.b) then false
        else decide (sGet scoreMap (c.a.getD "") > sGet scoreMap (c.b.getD "") + value)
      else if c.type == some "diff_abs_lte" then
        if !(strTruthy c.a && strTruthy c.b) then false
        else decide (|sGet scoreMap (c.a.getD "") - sGet scoreMap (c.b.getD "")| ≤ value)
      else if c.type == some "top_is" then
        ((getSortedScores scoreMap).head?.map (fun e => e.1)) == c.dim
      else if c.type == some "not_top_is" then
        !(((getSortedScores scoreMap).head?.map (fun e => e.1)) == c.dim)
      else if c.type == some "rank_is" then
        let rank : Int := Max.max 1 (match c.rank with
          | some r => if r == 0 then 1 else r
          | none => 1)
        (((getSortedScores scoreMap).get? (rank - 1).toNat).map (fun e => e.1)) == c.dim
      else if c.type == some "top_diff_gte" then
        let sorted := getSortedScores scoreMap
        let top := ((sorted.head?).map (fun e => e.2)).getD 0
        let second := ((sorted.get? 1).map (fun e => e.2)).getD 0
        decide (top - second ≥ value)
      else if c.type == some "top_diff_lte" then
        let sorted := getSortedScores scoreMap
        let top := ((sorted.head?).map (fun e => e.2)).getD 0
        let second := ((sorted.get? 1).map (fun e => e.2)).getD 0
        decide (top - second ≤ value)
      else if c.type == some "total_min" then decide (totalOf scoreMap ≥ value)
      else if c.type == some "total_max" then decide (totalOf scoreMap ≤ value)
      else if c.type == some "sum_min" then
        let dims := c.dims.getD []
        decide (dims.foldl (fun acc id => acc + sGet scoreMap id) 0 ≥ value)
      else if c.type == some "sum_max" then
        let dims := c.dims.getD []
        decide (dims.foldl (fun acc id => acc + sGet scoreMap id) 0 ≤ value)
      else if c.type == some "spread_between" then
        let values := scoreMap.map (fun e => e.2)
        let spread := if values.isEmpty then 0 else listMax values - listMin values
        let mn := c.min.getD 0
        (decide (spread ≥ mn)) &&
          (match c.max with | some mx => decide (spread ≤ mx) | none => true)
      else true

/-- Source `ResultProfile` interface (the fields the engine reads; the
remaining display-only fields do not influence any computation here). -/
structure ResultProfile where
  id : String
  title : String := ""
  summary : String := ""
  lore : Option String := none
  signals : Option (List String) := none
  priority : Option Int := none
  conditions : Option (List ResultCondition) := none
  extra : Option String := none
deriving DecidableEq, Repr

/-- `s || ""` on strings — and more generally `s || d` (a falsy string is
exactly `""`). -/
def strOrElse (s d : String) : String := if s == "" then d else s

/-- Source: `resultMatchesConditions` — `result.conditions || []` (an empty
array is truthy, so only a missing field falls back), empty list always
matches, otherwise `every`. -/
def resultMatchesConditions (result : ResultProfile) (scoreMap : ScoreMap) : Bool :=
  let conditions := result.conditions.getD []
  if conditions.isEmpty then true
  else conditions.all (fun cond => meetsCondition (some cond) scoreMap)

/-- Source: `resolveConditionalResult(results, scoreMap)`.  `bestPriority`
starts at `-Infinity` (modelled as `none`); a candidate's priority is
`Number.isFinite(result.priority) ? Number(result.priority) : 0` (absent →
0).  On an equal priority the code compares `index` — the candidate's index
in the *filtered* `candidates` list — against `results.indexOf(best)` — the
current best's index in the *full* list (`-1` when absent, which cannot
happen since candidates come from `results`).  JS `indexOf` uses reference
equality; configuration results are structurally distinct records, so
structural equality models it. -/
def resolveConditionalResult (results : List ResultProfile) (scoreMap : ScoreMap) :
    Option ResultProfile :=
  let candidates := results.filter (fun result => resultMatchesConditions result scoreMap)
  if candidates.isEmpty then none
  else
    (candidates.enum.foldl
      (fun (st : Option ResultProfile × Option Int) (p : Nat × ResultProfile) =>
        let best := st.1
        let bestPriority := st.2
        let index := p.1
        let result := p.2
        let priority := result.priority.getD 0
        match bestPriority with
        | none => (some result, some priority)
        | some bp =>
          if priority > bp then (some result, some priority)
          else if priority == bp then
            match best with
            | some b =>
              let bestIndex : Int :=
                match results.findIdx? (fun x => x == b) with
                | some n => (n : Int)
                | none => -1
              if (index : Int) < bestIndex then (some result, some bp)
              else (some b, some bp)
            | none => (some result, some bp)
          else (best, some bp))
      (none, none)).1

/-- The static per-dimension default map inside `computeResult`. -/
def fallbackMap : String → Option String := fun top =>
  List.lookup top
    [("calm", "potion_top_calm"), ("courage", "potion_top_courage"),
     ("focus", "potion_top_focus"), ("charm", "potion_top_charm"),
     ("tempo", "potion_top_tempo"), ("insight", "potion_top_insight"),
     ("resolve", "potion_top_resolve"), ("wonder", "potion_top_wonder")]

/-- The synthetic placeholder object literal in `computeResult`'s
`defaultResult` chain: `{ id: "fallback", title: "Your Potion", summary: "",
lore: "", signals: [] }`. -/
def placeholderResult : ResultProfile :=
  { id := "fallback", title := "Your Potion", summary := "", lore := some "",
    signals := some [] }

/-- Source: `computeResult(results, scoreMap)`.  Signal label from the sum of
absolute values; conditional winner if any; otherwise the unconditional
fallback: dominant dimensions by `|value|` descending (stable sort), default
result `results.find(id === "potion_calm") || results[0] || placeholder`,
per-dimension mapped result, and the `Dominant/Secondary` annotation
(`secondary ?` is a truthiness test, so an empty-string id is skipped). -/
def computeResult (results : List ResultProfile) (scoreMap : ScoreMap) : ResultProfile :=
  let total := (scoreMap.map (fun e => e.2)).foldl (fun acc v => acc + |v|) 0
  let signal := if total > 18 then "High signal"
    else if total > 10 then "Moderate signal" else "Soft signal"
  match resolveConditionalResult results scoreMap with
  | some conditional =>
    { conditional with
      summary := strOrElse conditional.summary "",
      extra := some (strOrElse (conditional.extra.getD "") "") }
  | none =>
    let dominant := (sortDescBy (fun e => |e.2|) scoreMap).map (fun e => e.1)
    let defaultResult :=
      match results.find? (fun result => result.id == "potion_calm") with
      | some r => r
      | none => results.headD placeholderResult
    match dominant with
    | [] => { defaultResult with extra := some signal }
    | top :: rest =>
      let secondary := rest.head?
      let resolved : ResultProfile :=
        match fallbackMap top with
        | some mappedId =>
          match results.find? (fun result => result.id == mappedId) with
          | some r => r
          | none => defaultResult
        | none => defaultResult
      { resolved with
        summary := strOrElse resolved.summary "",
        extra := some ("Dominant: " ++ top ++
          (match secondary with
           | some sec => if sec == "" then "" else ", Secondary: " ++ sec
           | none => "")) }

/-- JS object property assignment `m[k] = v` on a string-keyed object:
overwrite the value at an existing key (keeping its position), else append. -/
def setAssoc {β : Type} : List (String × β) → String → β → List (String × β)
  | [], k, v => [(k, v)]
  | (k', v') :: rest, k, v =>
    if k' == k then (k, v) :: rest else (k', v') :: setAssoc rest k v

/-- Source: the score-accumulation loop of `handleAnswer`:
`Object.entries(option.weights || {}).forEach(([dimId, delta]) => {
  nextScores[dimId] = clamp((nextScores[dimId] || 0) +
    (Number.isFinite(Number(delta)) ? Number(delta) : 0), -20, 20); })`. -/
def handleAnswerScores (scores : ScoreMap) (weights : List (String × JsNum)) : ScoreMap :=
  weights.foldl
    (fun acc p => setAssoc acc p.1 (clamp (sGet acc p.1 + p.2.finiteOr0) (-20) 20))
    scores

/-! ### Base64 (`btoa`/`atob`) and the URL-safe transform -/

/-- ASCII whitespace stripped by the forgiving-base64 decode behind `atob`. -/
def isB64Ws (c : Char) : Bool :=
  c == '\t' || c == '\n' || c == '\x0c' || c == '\r' || c == ' '

/-- The standard base64 alphabet, index → character. -/
def b64CharOfNat (i : Nat) : Char :=
  if i < 26 then Char.ofNat (65 + i)
  else if i < 52 then Char.ofNat (97 + (i - 26))
  else if i < 62 then Char.ofNat (48 + (i - 52))
  else if i == 62 then '+' else '/'

/-- The standard base64 alphabet, character → index (`none` off-alphabet). -/
def b64NatOfChar (c : Char) : Option Nat :=
  if 'A' ≤ c ∧ c ≤ 'Z' then some (c.toNat - 65)
  else if 'a' ≤ c ∧ c ≤ 'z' then some (c.toNat - 97 + 26)
  else if '0' ≤ c ∧ c ≤ '9' then some (c.toNat - 48 + 52)
  else if c == '+' then some 62
  else if c == '/' then some 63
  else none

/-- Bytes → base64 sextet stream (no padding characters). -/
def bytesToSextets : List Nat → List Nat
  | [] => []
  | [a] => [a / 4, a % 4 * 16]
  | [a, b] => [a / 4, a % 4 * 16 + b / 16, b % 16 * 4]
  | a :: b :: c :: rest =>
    (a / 4) :: (a % 4 * 16 + b / 16) :: (b % 16 * 4 + c / 64) :: (c % 64) ::
      bytesToSextets rest

/-- Sextet stream → bytes, discarding the unused bits of a trailing partial
group (forgiving-base64 semantics; a group of one sextet cannot survive the
length check and decodes to nothing). -/
def sextetsToBytes : List Nat → List Nat
  | s1 :: s2 :: s3 :: s4 :: rest =>
    (s1 * 4 + s2 / 16) :: (s2 % 16 * 16 + s3 / 4) :: (s3 % 4 * 64 + s4) ::
      sextetsToBytes rest
  | [s1, s2] => [s1 * 4 + s2 / 16]
  | [s1, s2, s3] => [s1 * 4 + s2 / 16, s2 % 16 * 16 + s3 / 4]
  | _ => []

/-- Padding characters `btoa` appends for a byte count. -/
def b64PadFor (n : Nat) : List Char :=
  match n % 3 with
  | 1 => ['=', '=']
  | 2 => ['=']
  | _ => []

/-- Browser `btoa`: throws (`none`) on any code unit above `0xFF`, otherwise
standard base64 of the Latin-1 bytes. -/
def btoa (text : String) : Option String :=
  let codes := text.data.map Char.toNat
  if codes.all (fun b => b < 256) then
    some (String.mk ((bytesToSextets codes).map b64CharOfNat ++ b64PadFor codes.length))
  else none

/-- Forgiving base64: when the length is a multiple of four, up to two
trailing `=` are removed. -/
def dropTrailingEq2 (l : List Char) : List Char :=
  match l.reverse with
  | '=' :: '=' :: rest => rest.reverse
  | '=' :: rest => rest.reverse
  | _ => l

/-- Browser `atob` (WHATWG forgiving-base64 decode): strip ASCII whitespace,
strip permitted trailing padding, reject a length `≡ 1 (mod 4)` or any
off-alphabet character, then decode sextets to bytes. -/
def atob (encoded : String) : Option String :=
  let cs := (encoded.data.filter (fun c => !isB64Ws c))
  let cs := if cs.length % 4 == 0 then dropTrailingEq2 cs else cs
  if cs.length % 4 == 1 then none
  else
    match cs.mapM b64NatOfChar with
    | some sextets => some (String.mk ((sextetsToBytes sextets).map Char.ofNat))
    | none => none

/-- `.replace(/\+/g, "-").replace(/\//g, "_")`, characterwise. -/
def stdToUrlChar (c : Char) : Char :=
  if c == '+' then '-' else if c == '/' then '_' else c

/-- The inverse alphabet swap: `-` back to `+` and `_` back to `/`,
characterwise. -/
def urlToStdChar (c : Char) : Char :=
  if c == '-' then '+' else if c == '_' then '/' else c

/-- `.replace(/=+$/g, "")`: strip every trailing `=`. -/
def dropTrailingEqAll (l : List Char) : List Char :=
  (l.reverse.dropWhile (fun c => c == '=')).reverse

/-- Source: `toBase64Url(text)` — `btoa` then the URL-safe alphabet swap and
padding strip. -/
def toBase64Url (text : String) : Option String :=
  (btoa text).map (fun s => String.mk (dropTrailingEqAll (s.data.map stdToUrlChar)))

/-- Source: `fromBase64Url(encoded)` — alphabet swap back, re-pad with `=` to
a multiple of four, `atob`. -/
def fromBase64Url (encoded : String) : Option String :=
  let padded := encoded.data.map urlToStdChar
  let padLen := (4 - padded.length % 4) % 4
  atob (String.mk (padded ++ List.replicate padLen '='))

/-! ### JSON (`JSON.stringify` / `JSON.parse`)

JSON values as the engine's payloads use them.  Numbers are integers: every
number the codec serializes is an integer score/answer index, so fractional
and exponent literals are outside the modelled fragment (the parser rejects
them where `JSON.parse` would accept). -/

inductive Json where
  | null
  | bool (b : Bool)
  | num (i : Int)
  | str (s : String)
  | arr (items : List Json)
  | obj (fields : List (String × Json))

/-- Lowercase hex digit, as `JSON.stringify` emits in `\u00xx` escapes. -/
def hexLowerDigit (n : Nat) : Char :=
  if n < 10 then Char.ofNat (48 + n) else Char.ofNat (97 + (n - 10))

/-- `JSON.stringify` string-character escaping: `"`, `\`, the five named
control escapes, `\u00xx` for the remaining control characters, everything
else verbatim. -/
def escapeJsonChar (c : Char) : List Char :=
  if c == '"' then ['\\', '"']
  else if c == '\\' then ['\\', '\\']
  else if c == '\x08' then ['\\', 'b']
  else if c == '\t' then ['\\', 't']
  else if c == '\n' then ['\\', 'n']
  else if c == '\x0c' then ['\\', 'f']
  else if c == '\r' then ['\\', 'r']
  else if c.toNat < 32 then
    '\\' :: 'u' :: '0' :: '0'
      :: [hexLowerDigit (c.toNat / 16), hexLowerDigit (c.toNat % 16)]
  else [c]

/-- A JSON string literal: quote, escape, quote. -/
def quoteJsonString (s : String) : List Char :=
  '"' :: (s.data.flatMap escapeJsonChar ++ ['"'])

/-- Decimal digits of `n`, most significant first (fuel-driven so that this
reduces definitionally; `fuel = n + 1` always suffices). -/
def natToDigitsAux : Nat → Nat → List Char
  | 0, _ => []
  | fuel + 1, n =>
    if n < 10 then [Char.ofNat (48 + n)]
    else natToDigitsAux fuel (n / 10) ++ [Char.ofNat (48 + n % 10)]

/-- Decimal rendering of a natural number. -/
def natToChars (n : Nat) : List Char := natToDigitsAux (n + 1) n

/-- Decimal rendering of an integer, as `JSON.stringify` prints one. -/
def intToChars (i : Int) : List Char :=
  if i < 0 then '-' :: natToChars i.natAbs else natToChars i.toNat

mutual

/-- `JSON.stringify`, to a character list. -/
def jsonStringifyChars : Json → List Char
  | .null => "null".data
  | .bool true => "true".data
  | .bool false => "false".data
  | .num i => intToChars i
  | .str s => quoteJsonString s
  | .arr items => '[' :: (stringifyItemsChars items ++ [']'])
  | .obj fields => '\x7b' :: (stringifyFieldsChars fields ++ ['\x7d'])

/-- Comma-separated array elements. -/
def stringifyItemsChars : List Json → List Char
  | [] => []
  | [x] => jsonStringifyChars x
  | x :: y :: rest => jsonStringifyChars x ++ ',' :: stringifyItemsChars (y :: rest)

/-- Comma-separated `"key":value` object members. -/
def stringifyFieldsChars : List (String × Json) → List Char
  | [] => []
  | [f] => quoteJsonString f.1 ++ ':' :: jsonStringifyChars f.2
  | f :: g :: rest =>
    quoteJsonString f.1 ++ ':' :: jsonStringifyChars f.2 ++ ',' :: stringifyFieldsChars (g :: rest)

end

/-- `JSON.stringify` as a string. -/
def jsonStringify (j : Json) : String := String.mk (jsonStringifyChars j)

/-- JSON whitespace. -/
def isJsonWs (c : Char) : Bool := c == '\t' || c == '\n' || c == '\r' || c == ' '

/-- Skip JSON whitespace. -/
def skipJsonWs (cs : List Char) : List Char := cs.dropWhile isJsonWs

/-- ASCII decimal digit test. -/
def isDigitChar (c : Char) : Bool := '0' ≤ c && c ≤ '9'

/-- Hex digit value. -/
def hexVal (c : Char) : Option Nat :=
  if '0' ≤ c ∧ c ≤ '9' then some (c.toNat - 48)
  else if 'a' ≤ c ∧ c ≤ 'f' then some (c.toNat - 87)
  else if 'A' ≤ c ∧ c ≤ 'F' then some (c.toNat - 55)
  else none

/-- JSON string-body parser, after the opening quote: returns the decoded
characters and the input after the closing quote.  Surrogate `\u` escapes
must form a valid pair (lone surrogates, which JS strings tolerate, have no
`Char` counterpart and are outside the modelled fragment). -/
def parseStrAux : List Char → Option (List Char × List Char)
  | [] => none
  | '"' :: rest => some ([], rest)
  | '\\' :: '"' :: rest => (parseStrAux rest).map (fun p => ('"' :: p.1, p.2))
  | '\\' :: '\\' :: rest => (parseStrAux rest).map (fun p => ('\\' :: p.1, p.2))
  | '\\' :: '/' :: rest => (parseStrAux rest).map (fun p => ('/' :: p.1, p.2))
  | '\\' :: 'b' :: rest => (parseStrAux rest).map (fun p => ('\x08' :: p.1, p.2))
  | '\\' :: 'f' :: rest => (parseStrAux rest).map (fun p => ('\x0c' :: p.1, p.2))
  | '\\' :: 'n' :: rest => (parseStrAux rest).map (fun p => ('\n' :: p.1, p.2))
  | '\\' :: 'r' :: rest => (parseStrAux rest).map (fun p => ('\r' :: p.1, p.2))
  | '\\' :: 't' :: rest => (parseStrAux rest).map (fun p => ('\t' :: p.1, p.2))
  | '\\' :: 'u' :: h1 :: h2 :: h3 :: h4 :: rest =>
    (match hexVal h1, hexVal h2, hexVal h3, hexVal h4 with
     | some a, some b, some c, some d =>
       let cp := a * 4096 + b * 256 + c * 16 + d
       if cp < 55296 ∨ 57344 ≤ cp then
         (parseStrAux rest).map (fun p => (Char.ofNat cp :: p.1, p.2))
       else if cp < 56320 then
         match rest with
         | '\\' :: 'u' :: g1 :: g2 :: g3 :: g4 :: rest2 =>
           (match hexVal g1, hexVal g2, hexVal g3, hexVal g4 with
            | some a2, some b2, some c2, some d2 =>
              let cp2 := a2 * 4096 + b2 * 256 + c2 * 16 + d2
              if 56320 ≤ cp2 ∧ cp2 < 57344 then
                (parseStrAux rest2).map (fun p =>
                  (Char.ofNat (65536 + (cp - 55296) * 1024 + (cp2 - 56320)) :: p.1, p.2))
              else none
            | _, _, _, _ => none)
         | _ => none
       else none
     | _, _, _, _ => none)
  | '\\' :: _ => none
  | c :: rest =>
    if c.toNat < 32 then none
    else (parseStrAux rest).map (fun p => (c :: p.1, p.2))

/-- Greedy decimal-digit run with an accumulator. -/
def parseDigitsAcc : List Char → Nat → Nat × List Char
  | [], acc => (acc, [])
  | c :: rest, acc =>
    if isDigitChar c then parseDigitsAcc rest (acc * 10 + (c.toNat - 48))
    else (acc, c :: rest)

/-- Unsigned JSON integer: `0` with no digit following, or a nonzero run. -/
def parseNumCore : List Char → Option (Nat × List Char)
  | [] => none
  | c :: rest =>
    if c == '0' then
      match rest with
      | d :: _ => if isDigitChar d then none else some (0, rest)
      | [] => some (0, [])
    else if isDigitChar c then some (parseDigitsAcc (c :: rest) 0)
    else none

/-- JSON integer literal, with optional leading minus. -/
def parseJsonNumber (cs : List Char) : Option (Int × List Char) :=
  if cs.head? == some '-' then (parseNumCore cs.tail).map (fun p => (-(p.1 : Int), p.2))
  else (parseNumCore cs).map (fun p => ((p.1 : Int), p.2))

/-- Object assembly with `JSON.parse`'s duplicate-key semantics: position of
the first occurrence, value of the last. -/
def dedupFields (fields : List (String × Json)) : List (String × Json) :=
  fields.foldl (fun acc f => setAssoc acc f.1 f.2) []

mutual

/-- Recursive-descent JSON value parser.  The fuel bounds the depth of
mutual recursion; `input length + 1` dominates it for every input, since
along any call chain at least one character is consumed for every two units
of fuel spent. -/
def parseJsonValue : Nat → List Char → Option (Json × List Char)
  | 0, _ => none
  | fuel + 1, cs =>
    match skipJsonWs cs with
    | 'n' :: 'u' :: 'l' :: 'l' :: rest => some (.null, rest)
    | 't' :: 'r' :: 'u' :: 'e' :: rest => some (.bool true, rest)
    | 'f' :: 'a' :: 'l' :: 's' :: 'e' :: rest => some (.bool false, rest)
    | '"' :: rest => (parseStrAux rest).map (fun p => (.str (String.mk p.1), p.2))
    | '[' :: rest =>
      (match skipJsonWs rest with
       | ']' :: rest2 => some (.arr [], rest2)
       | cs2 => (parseItemsLoop fuel cs2).map (fun p => (.arr p.1, p.2)))
    | '\x7b' :: rest =>
      (match skipJsonWs rest with
       | '\x7d' :: rest2 => some (.obj [], rest2)
       | cs2 => (parseFieldsLoop fuel cs2).map (fun p => (.obj (dedupFields p.1), p.2)))
    | c :: rest =>
      if c == '-' || isDigitChar c then
        (parseJsonNumber (c :: rest)).map (fun p => (.num p.1, p.2))
      else none
    | [] => none

/-- `value (',' value)* ']'` after a non-`]` lookahead. -/
def parseItemsLoop : Nat → List Char → Option (List Json × List Char)
  | 0, _ => none
  | fuel + 1, cs =>
    match parseJsonValue fuel cs with
    | none => none
    | some (v, r1) =>
      match skipJsonWs r1 with
      | ',' :: r2 => (parseItemsLoop fuel r2).map (fun p => (v :: p.1, p.2))
      | ']' :: r2 => some ([v], r2)
      | _ => none

/-- `string ':' value (',' member)* '}'` after a non-`}` lookahead. -/
def parseFieldsLoop : Nat → List Char → Option (List (String × Json) × List Char)
  | 0, _ => none
  | fuel + 1, cs =>
    match skipJsonWs cs with
    | '"' :: r0 =>
      (match parseStrAux r0 with
       | none => none
       | some (key, r1) =>
         match skipJsonWs r1 with
         | ':' :: r2 =>
           (match parseJsonValue fuel r2 with
            | none => none
            | some (v, r3) =>
              match skipJsonWs r3 with
              | ',' :: r4 =>
                (parseFieldsLoop fuel r4).map (fun p => ((String.mk key, v) :: p.1, p.2))
              | '\x7d' :: r4 => some ([(String.mk key, v)], r4)
              | _ => none)
         | _ => none)
    | _ => none

end

/-- `JSON.parse` on the modelled fragment: parse one value, then only
whitespace may remain. -/
def jsonParse (text : String) : Option Json :=
  let cs := text.data
  match parseJsonValue (cs.length + 1) cs with
  | some (j, rest) => if (skipJsonWs rest).isEmpty then some j else none
  | none => none

/-- JS property read `j[k]` for the decode-side checks: defined on objects
(`undefined`, i.e. `none`, elsewhere). -/
def jget (j : Json) (k : String) : Option Json :=
  match j with
  | .obj fields => List.lookup k fields
  | _ => none

/-- The characters that may legally follow a serialized value inside a
serialized document: a separator, a closing bracket, or the end of input.
Used to delimit the greedy number parser. -/
def sepOk : List Char → Bool
  | [] => true
  | c :: _ => c == ',' || c == ']' || c == '\x7d'

mutual

/-- Well-formedness of a `Json` value as a serialization source: every
object's keys are pairwise distinct (so `JSON.parse`'s duplicate-key
resolution is the identity). -/
def jsonWf : Json → Bool
  | .null => true
  | .bool _ => true
  | .num _ => true
  | .str _ => true
  | .arr items => jsonWfItems items
  | .obj fields => jsonWfFields fields

/-- All array elements well-formed. -/
def jsonWfItems : List Json → Bool
  | [] => true
  | x :: xs => jsonWf x && jsonWfItems xs

/-- All field values well-formed and each key distinct from the later ones. -/
def jsonWfFields : List (String × Json) → Bool
  | [] => true
  | f :: fs => jsonWf f.2 && fs.all (fun g => !(g.1 == f.1)) && jsonWfFields fs

end

mutual

/-- Fuel sufficient for `parseJsonValue` on the serialization of a value. -/
def needV : Json → Nat
  | .null => 1
  | .bool _ => 1
  | .num _ => 1
  | .str _ => 1
  | .arr items => 1 + needI items
  | .obj fields => 1 + needF fields

/-- Fuel sufficient for `parseItemsLoop` on serialized array elements. -/
def needI : List Json → Nat
  | [] => 0
  | x :: xs => 1 + max (needV x) (needI xs)

/-- Fuel sufficient for `parseFieldsLoop` on serialized object members. -/
def needF : List (String × Json) → Nat
  | [] => 0
  | f :: fs => 1 + max (needV f.2) (needF fs)

end

/-! ### Versioned share state -/

/-- Source `SharedStateV1` interface.  The `v : 1` discriminant is a literal
type fixed by the interface and is emitted by the serializer. -/
structure SharedStateV1 where
  resultId : String
  scores : List (String × Int)
  answers : List Int
deriving DecidableEq, Repr

/-- The JSON value `JSON.stringify` receives for a `SharedStateV1` payload,
fields in declaration order (`v`, `resultId`, `scores`, `answers`). -/
def sharedToJson (payload : SharedStateV1) : Json :=
  .obj [("v", .num 1), ("resultId", .str payload.resultId),
        ("scores", .obj (payload.scores.map (fun e => (e.1, Json.num e.2)))),
        ("answers", .arr (payload.answers.map Json.num))]

/-- Source: `encodeShareState(payload)` — `toBase64Url(JSON.stringify(payload))`.
`none` models the `btoa` exception on non-Latin-1 serializations, which the
source does not catch. -/
def encodeShareState (payload : SharedStateV1) : Option String :=
  toBase64Url (jsonStringify (sharedToJson payload))

/-- `parsed?.v !== 1` as a Boolean: the property must be the number `1`. -/
def jsonVIs1 (parsed : Json) : Bool :=
  match jget parsed "v" with
  | some (.num i) => i == 1
  | _ => false

/-- `typeof parsed.resultId !== "string"` as a Boolean. -/
def jsonResultIdIsString (parsed : Json) : Bool :=
  match jget parsed "resultId" with
  | some (.str _) => true
  | _ => false

/-- Source: `decodeShareState(rawValue)`.  `null`/empty input is falsy and
rejected; the `try`/`catch` around `JSON.parse(fromBase64Url(rawValue))`
becomes the `Option` pipeline; a parse with `v !== 1` or a non-string
`resultId` is rejected; otherwise the parsed value is returned as-is (the
source performs a type cast, not a validation of `scores`/`answers`). -/
def decodeShareState (rawValue : Option String) : Option Json :=
  match rawValue with
  | none => none
  | some s =>
    if s == "" then none
    else
      match (fromBase64Url s).bind (fun t => jsonParse t) with
      | none => none
      | some parsed =>
        if jsonVIs1 parsed && jsonResultIdIsString parsed then some parsed else none

/-- `decodeShareState(encodeShareState(payload))`, the round trip of the
versioned codec (`none` when the encode side throws). -/
def roundTripShareState (payload : SharedStateV1) : Option Json :=
  (encodeShareState payload).bind (fun e => decodeShareState (some e))

/-! ### `decodeURIComponent` and the legacy scores codec -/

/-- Percent-decoding tokenization: literal characters pass through, `%HH`
pairs become bytes; a malformed escape throws. -/
def pctTokens : List Char → Option (List (Sum Char Nat))
  | [] => some []
  | '%' :: rest =>
    (match rest with
     | h1 :: h2 :: rest2 =>
       (match hexVal h1, hexVal h2 with
        | some a, some b => (pctTokens rest2).map (fun l => Sum.inr (a * 16 + b) :: l)
        | _, _ => none)
     | _ => none)
  | c :: rest => (pctTokens rest).map (fun l => Sum.inl c :: l)

/-- A UTF-8 continuation byte's payload. -/
def utf8Cont : Sum Char Nat → Option Nat
  | Sum.inr b => if 128 ≤ b ∧ b < 192 then some (b - 128) else none
  | Sum.inl _ => none

/-- Decode the token stream: literal characters verbatim, byte runs as UTF-8
(overlong encodings, surrogate code points and out-of-range sequences
throw, as `decodeURIComponent` does). -/
def decodePctTokens : List (Sum Char Nat) → Option (List Char)
  | [] => some []
  | Sum.inl c :: rest => (decodePctTokens rest).map (fun l => c :: l)
  | Sum.inr b :: rest =>
    if b < 128 then (decodePctTokens rest).map (fun l => Char.ofNat b :: l)
    else if 192 ≤ b ∧ b < 224 then
      match rest with
      | t :: rest2 =>
        (match utf8Cont t with
         | some c1 =>
           let cp := (b - 192) * 64 + c1
           if cp < 128 then none
           else (decodePctTokens rest2).map (fun l => Char.ofNat cp :: l)
         | none => none)
      | [] => none
    else if 224 ≤ b ∧ b < 240 then
      match rest with
      | t1 :: t2 :: rest2 =>
        (match utf8Cont t1, utf8Cont t2 with
         | some c1, some c2 =>
           let cp := (b - 224) * 4096 + c1 * 64 + c2
           if cp < 2048 ∨ (55296 ≤ cp ∧ cp < 57344) then none
           else (decodePctTokens rest2).map (fun l => Char.ofNat cp :: l)
         | _, _ => none)
      | _ => none
    else if 240 ≤ b ∧ b < 248 then
      match rest with
      | t1 :: t2 :: t3 :: rest2 =>
        (match utf8Cont t1, utf8Cont t2, utf8Cont t3 with
         | some c1, some c2, some c3 =>
           let cp := (b - 240) * 262144 + c1 * 4096 + c2 * 64 + c3
           if cp < 65536 ∨ 1114112 ≤ cp then none
           else (decodePctTokens rest2).map (fun l => Char.ofNat cp :: l)
         | _, _, _ => none)
      | _ => none
    else none

/-- Browser `decodeURIComponent` (throwing modelled as `none`). -/
def decodeURIComponent (s : String) : Option String :=
  (pctTokens s.data).bind (fun toks => (decodePctTokens toks).map String.mk)

/-- `Number(s)` for a string, on the engine's data domain: trimmed empty
string is `0`, an optional sign followed by decimal digits is that integer,
anything else is `NaN` (fractional/hex/exponent literals are outside the
modelled fragment). -/
def strToNumber (s : String) : JsNum :=
  let t := s.trim
  if t == "" then .num 0
  else
    let core := fun (ds : List Char) (sign : Int) =>
      if !ds.isEmpty && ds.all isDigitChar then
        JsNum.num (sign * (ds.foldl (fun acc c => acc * 10 + ((c.toNat : Int) - 48)) (0 : Int)))
      else JsNum.nan
    match t.data with
    | '-' :: ds => core ds (-1)
    | '+' :: ds => core ds 1
    | ds => core ds 1

/-- `Number(x)` coercion of a parsed JSON value (the fragment reachable from
the legacy decoder: numbers, `null`, booleans, strings, `[]` and singleton
numeric arrays coerce; other arrays and objects are `NaN`). -/
def jsNumberOfJson : Json → JsNum
  | .num i => .num i
  | .null => .num 0
  | .bool b => .num (if b then 1 else 0)
  | .str s => strToNumber s
  | .arr [] => .num 0
  | .arr [Json.num i] => .num i
  | .arr _ => .nan
  | .obj _ => .nan

/-- View of a parsed JSON value as `normalizeScoresForDimensions` input:
property reads on an object see its (coerced) members; on any other value
every dimension id reads as `undefined`. -/
def jsonToScoreInput (j : Json) : List (String × JsNum) :=
  match j with
  | .obj fields => fields.map (fun f => (f.1, jsNumberOfJson f.2))
  | _ => []

/-- Source: `decodeLegacyScoresFromUrl(rawValue, dimensions)` — falsy input
rejected, `JSON.parse(decodeURIComponent(rawValue))` under `try`/`catch`,
then normalization into `[-10, 10]`. -/
def decodeLegacyScoresFromUrl (rawValue : Option String) (dimensions : List Dimension) :
    Option ScoreMap :=
  match rawValue with
  | none => none
  | some s =>
    if s == "" then none
    else
      match (decodeURIComponent s).bind (fun t => jsonParse t) with
      | none => none
      | some parsed =>
        some (normalizeScoresForDimensions (some (jsonToScoreInput parsed))
          dimensions (-10) 10)

/-! ### Spec-side comparison definitions -/

/-- The fifteen condition kinds the evaluator's `switch` recognizes. -/
def recognizedTypes : List String :=
  ["min", "max_le", "max_ge", "diff_greater", "diff_abs_lte", "top_is",
   "not_top_is", "rank_is", "top_diff_gte", "top_diff_lte", "total_min",
   "total_max", "sum_min", "sum_max", "spread_between"]

/-- The spec's description of the unconditional fallback outcome, written
from the claim's words for comparison with `computeResult`: dominant
dimensions by absolute value descending (stable); the per-dimension static
default id; a mapped result absent from `results` falls back to the
`potion_calm` sentinel if present, else the first entry; `extra` is
`"Dominant: <top>"` followed by `", Secondary: <second>"` whenever a second
dimension exists. -/
def specFallbackOutcome (results : List ResultProfile) (scoreMap : ScoreMap) :
    ResultProfile :=
  let ids := (sortDescBy (fun e => |e.2|) scoreMap).map (fun e => e.1)
  let defaultR : ResultProfile :=
    match results.find? (fun r => r.id == "potion_calm") with
    | some r => r
    | none => results.headD placeholderResult
  match ids with
  | [] =>
    let total := (scoreMap.map (fun e => e.2)).foldl (fun acc v => acc + |v|) (0 : Int)
    { defaultR with extra := some (if total > 18 then "High signal"
        else if total > 10 then "Moderate signal" else "Soft signal") }
  | top :: rest =>
    let base : ResultProfile :=
      match fallbackMap top with
      | some mappedId =>
        (match results.find? (fun r => r.id == mappedId) with
         | some r => r
         | none => defaultR)
      | none => defaultR
    { base with
      summary := base.summary,
      extra := some ("Dominant: " ++ top ++
        (match rest.head? with
         | some sec => ", Secondary: " ++ sec
         | none => "")) }

/-! ### Association list, clamp and sorting lemmas -/

theorem lookup_eq_none_of_not_mem_keys {β : Type} (l : List (String × β)) (k : String)
    (h : k ∉ l.map Prod.fst) : List.lookup k l = none := by
  induction l with
  | nil => rfl
  | cons p t ih =>
    simp only [List.map, List.mem_cons, not_or] at h
    simp only [List.lookup]
    have : (k == p.1) = false := by simpa using h.1
    rw [this]
    exact ih h.2

theorem lookup_setAssoc {β : Type} (l : List (String × β)) (k d : String) (v : β) :
    List.lookup d (setAssoc l k v) = if d = k then some v else List.lookup d l := by
  induction l with
  | nil =>
    by_cases h : d = k
    · subst h; simp [setAssoc, List.lookup]
    · have h' : (d == k) = false := by simpa using h
      simp [setAssoc, List.lookup, h', h]
  | cons p t ih =>
    obtain ⟨k', v'⟩ := p
    by_cases hk : k' = k
    · subst hk
      by_cases hd : d = k'
      · subst hd; simp [setAssoc, List.lookup]
      · have hd' : (d == k') = false := by simpa using hd
        simp [setAssoc, List.lookup, hd', hd]
    · have hk' : (k' == k) = false := by simpa using hk
      by_cases hd : d = k'
      · subst hd
        simp [setAssoc, List.lookup, hk', hk]
      · have hd' : (d == k') = false := by simpa using hd
        simp [setAssoc, List.lookup, hk', hd', ih]

theorem clamp_bounds (v lo hi : Int) (h : lo ≤ hi) :
    lo ≤ clamp v lo hi ∧ clamp v lo hi ≤ hi := by
  unfold clamp
  exact ⟨le_max_left lo _, max_le h (min_le_left hi v)⟩

theorem firstMaxBy_cons (key : String × Int → Int) (x : String × Int)
    (xs : List (String × Int)) :
    firstMaxBy key (x :: xs) = match firstMaxBy key xs with
      | none => some x
      | some m => if key x ≥ key m then some x else some m := rfl

theorem firstMaxBy_eq_none_iff (key : String × Int → Int) (l : List (String × Int)) :
    firstMaxBy key l = none ↔ l = [] := by
  cases l with
  | nil => simp [firstMaxBy]
  | cons x xs =>
    rw [firstMaxBy_cons]
    cases firstMaxBy key xs with
    | none => simp
    | some m =>
      by_cases h : key x ≥ key m
      · simp [h]
      · simp [h]

theorem firstMaxBy_mem (key : String × Int → Int) (l : List (String × Int))
    (m : String × Int) (h : firstMaxBy key l = some m) : m ∈ l := by
  induction l generalizing m with
  | nil => simp [firstMaxBy] at h
  | cons x xs ih =>
    rw [firstMaxBy_cons] at h
    cases hm : firstMaxBy key xs with
    | none =>
      rw [hm] at h
      simp only [Option.some.injEq] at h
      subst h
      exact List.mem_cons_self _ _
    | some m' =>
      rw [hm] at h
      dsimp only at h
      by_cases hge : key x ≥ key m'
      · rw [if_pos hge] at h
        simp only [Option.some.injEq] at h
        subst h
        exact List.mem_cons_self _ _
      · rw [if_neg hge] at h
        simp only [Option.some.injEq] at h
        subst h
        exact List.mem_cons_of_mem x (ih m' hm)

theorem firstMaxBy_all_le (key : String × Int → Int) (l : List (String × Int))
    (m : String × Int) (h : firstMaxBy key l = some m) :
    ∀ e ∈ l, key e ≤ key m := by
  induction l generalizing m with
  | nil => simp
  | cons x xs ih =>
    rw [firstMaxBy_cons] at h
    cases hm : firstMaxBy key xs with
    | none =>
      rw [hm] at h
      simp only [Option.some.injEq] at h
      subst h
      have hxs : xs = [] := (firstMaxBy_eq_none_iff key xs).mp hm
      subst hxs
      simp
    | some m' =>
      rw [hm] at h
      dsimp only at h
      by_cases hge : key x ≥ key m'
      · rw [if_pos hge] at h
        simp only [Option.some.injEq] at h
        subst h
        intro e he
        rcases List.mem_cons.mp he with rfl | he'
        · exact le_refl _
        · exact le_trans (ih m' hm e he') hge
      · rw [if_neg hge] at h
        simp only [Option.some.injEq] at h
        subst h
        intro e he
        rcases List.mem_cons.mp he with rfl | he'
        · exact le_of_not_le hge
        · exact ih _ hm e he'

theorem find?_congr_of_imp {α : Type} {p q : α → Bool} {l : List α} {m : α}
    (himp : ∀ e ∈ l, p e = true → q e = true)
    (hq : l.find? q = some m) (hpm : p m = true) : l.find? p = some m := by
  induction l with
  | nil => simp at hq
  | cons x xs ih =>
    by_cases hqx : q x = true
    · rw [List.find?_cons_of_pos _ hqx] at hq
      simp only [Option.some.injEq] at hq
      subst hq
      rw [List.find?_cons_of_pos _ hpm]
    · rw [List.find?_cons_of_neg _ (by simpa using hqx)] at hq
      have hpx : ¬ p x = true := fun hp => hqx (himp x (List.mem_cons_self x xs) hp)
      rw [List.find?_cons_of_neg _ (by simpa using hpx)]
      exact ih (fun e he => himp e (List.mem_cons_of_mem x he)) hq

theorem firstMaxBy_eq_find? (key : String × Int → Int) (l : List (String × Int)) :
    firstMaxBy key l = l.find? (fun e => l.all (fun e2 => key e2 ≤ key e)) := by
  induction l with
  | nil => rfl
  | cons x xs ih =>
    rw [firstMaxBy_cons]
    cases hm : firstMaxBy key xs with
    | none =>
      have hxs : xs = [] := (firstMaxBy_eq_none_iff key xs).mp hm
      subst hxs
      simp [List.find?]
    | some m =>
      have hmem : m ∈ xs := firstMaxBy_mem key xs m hm
      have hall : ∀ e ∈ xs, key e ≤ key m := firstMaxBy_all_le key xs m hm
      dsimp only
      by_cases hge : key x ≥ key m
      · rw [if_pos hge]
        have hx : ((x :: xs).all (fun e2 => decide (key e2 ≤ key x))) = true := by
          simp only [List.all_cons, Bool.and_eq_true, decide_eq_true_eq, List.all_eq_true]
          exact ⟨le_refl _, fun e he => le_trans (hall e he) hge⟩
        exact (@List.find?_cons_of_pos _
          (fun e => (x :: xs).all (fun e2 => decide (key e2 ≤ key e))) x xs hx).symm
      · rw [if_neg hge]
        have hxm : key x < key m := lt_of_not_le hge
        have hx : ¬ (((x :: xs).all (fun e2 => decide (key e2 ≤ key x))) = true) := by
          simp only [List.all_cons, Bool.and_eq_true, decide_eq_true_eq, List.all_eq_true]
          rintro ⟨-, hforall⟩
          exact absurd (hforall m hmem) (not_le.mpr hxm)
        rw [@List.find?_cons_of_neg _
          (fun e => (x :: xs).all (fun e2 => decide (key e2 ≤ key e))) x xs hx]
        rw [ih] at hm
        refine (find?_congr_of_imp ?_ hm ?_).symm
        · intro e he hp
          simp only [List.all_cons, Bool.and_eq_true, decide_eq_true_eq, List.all_eq_true] at hp
          simp only [List.all_eq_true, decide_eq_true_eq]
          exact hp.2
        · have hq := List.find?_some hm
          simp only [List.all_eq_true, decide_eq_true_eq] at hq
          simp only [List.all_cons, Bool.and_eq_true, decide_eq_true_eq, List.all_eq_true]
          exact ⟨le_of_lt hxm, hq⟩

theorem insertDesc_ne_nil (key : String × Int → Int) (x : String × Int)
    (l : List (String × Int)) : insertDesc key x l ≠ [] := by
  cases l with
  | nil => simp [insertDesc]
  | cons y ys =>
    simp only [insertDesc]
    split <;> simp

theorem sortDescBy_eq_nil_iff (key : String × Int → Int) (l : List (String × Int)) :
    sortDescBy key l = [] ↔ l = [] := by
  cases l with
  | nil => simp [sortDescBy]
  | cons x xs =>
    simp only [sortDescBy]
    exact ⟨fun h => absurd h (insertDesc_ne_nil key x _), fun h => by simp at h⟩

theorem mem_insertDesc (key : String × Int → Int) (x e : String × Int)
    (l : List (String × Int)) : e ∈ insertDesc key x l ↔ e = x ∨ e ∈ l := by
  induction l with
  | nil => simp [insertDesc]
  | cons y ys ih =>
    simp only [insertDesc]
    split
    · simp only [List.mem_cons, ih]
      tauto
    · simp only [List.mem_cons]

theorem mem_sortDescBy (key : String × Int → Int) (e : String × Int)
    (l : List (String × Int)) : e ∈ sortDescBy key l ↔ e ∈ l := by
  induction l with
  | nil => simp [sortDescBy]
  | cons x xs ih =>
    simp only [sortDescBy, mem_insertDesc, ih, List.mem_cons]

theorem head?_sortDescBy (key : String × Int → Int) (l : List (String × Int)) :
    (sortDescBy key l).head? = firstMaxBy key l := by
  induction l with
  | nil => rfl
  | cons x xs ih =>
    simp only [sortDescBy]
    rw [firstMaxBy_cons]
    cases hs : sortDescBy key xs with
    | nil =>
      have hxs : xs = [] := (sortDescBy_eq_nil_iff key xs).mp hs
      subst hxs
      simp [insertDesc, firstMaxBy]
    | cons h t =>
      rw [hs] at ih
      simp only [List.head?] at ih
      rw [← ih]
      simp only [insertDesc]
      by_cases hgt : key h > key x
      · rw [if_pos hgt]
        simp only [List.head?]
        rw [if_neg (not_le.mpr hgt)]
      · rw [if_neg hgt]
        simp only [List.head?]
        rw [if_pos (le_of_not_lt hgt)]

theorem strOrElse_empty (s : String) : strOrElse s "" = s := by
  unfold strOrElse
  split
  · next h => rw [show s = "" by simpa using h]
  · rfl

theorem resolveConditionalResult_none_of_no_match (results : List ResultProfile)
    (scoreMap : ScoreMap) (h : ∀ r ∈ results, resultMatchesConditions r scoreMap = false) :
    resolveConditionalResult results scoreMap = none := by
  unfold resolveConditionalResult
  have hfil : results.filter (fun result => resultMatchesConditions result scoreMap) = [] := by
    rw [List.filter_eq_nil_iff]
    intro a ha
    simp [h a ha]
  rw [hfil]
  rfl

/-- C1 -/
theorem c1_tiebreak_full_index_bug :
    (resolveConditionalResult
      [{ id := "a", conditions := some [{ type := some "min", dim := some "calm", value := some 100 }] },
       { id := "b", conditions := some [{ type := some "min", dim := some "calm", value := some 100 }] },
       { id := "c" }, { id := "d" }]
      [("calm", 0)]).map ResultProfile.id = some "d" ∧
    resultMatchesConditions { id := "c" } [("calm", 0)] = true ∧
    resultMatchesConditions { id := "d" } [("calm", 0)] = true ∧
    ({ id := "c" } : ResultProfile).priority.getD 0
      = ({ id := "d" } : ResultProfile).priority.getD 0 := by
  refine ⟨by decide, by decide, by decide, by decide⟩

/-- C2 counterexample -/
theorem c2_placeholder_title_not_empty :
    (computeResult [] []).title = "Your Potion" ∧ (computeResult [] []).title ≠ "" := by
  refine ⟨rfl, by decide⟩

/-- C2 amended -/
theorem c2_empty_results_placeholder (scoreMap : ScoreMap) :
    (computeResult [] scoreMap).id = "fallback" ∧
    (computeResult [] scoreMap).title = "Your Potion" ∧
    (computeResult [] scoreMap).summary = "" ∧
    (computeResult [] scoreMap).signals = some [] := by
  have hres : resolveConditionalResult [] scoreMap = none := rfl
  unfold computeResult
  rw [hres]
  dsimp only
  cases hdom : (sortDescBy (fun e => |e.2|) scoreMap).map (fun e => e.1) with
  | nil => exact ⟨rfl, rfl, rfl, rfl⟩
  | cons top rest =>
    dsimp only
    cases hfb : fallbackMap top with
    | none => exact ⟨rfl, rfl, rfl, rfl⟩
    | some mid => exact ⟨rfl, rfl, rfl, rfl⟩

theorem normalize_mem_bounds (input : Option (List (String × JsNum)))
    (dims : List Dimension) (lo hi : Int) (hlo : lo ≤ 0) (hhi : 0 ≤ hi) :
    ∀ e ∈ normalizeScoresForDimensions input dims lo hi, lo ≤ e.2 ∧ e.2 ≤ hi := by
  intro e he
  unfold normalizeScoresForDimensions at he
  obtain ⟨d, hd, rfl⟩ := List.mem_map.mp he
  dsimp only
  cases input with
  | none => exact ⟨hlo, hhi⟩
  | some m =>
    dsimp only
    cases hl : List.lookup d.id m with
    | none => exact ⟨hlo, hhi⟩
    | some jn =>
      cases jn with
      | num v => exact clamp_bounds v lo hi (le_trans hlo hhi)
      | nan => exact ⟨hlo, hhi⟩

theorem normalize_keys (input : Option (List (String × JsNum))) (dims : List Dimension)
    (lo hi : Int) :
    (normalizeScoresForDimensions input dims lo hi).map Prod.fst = dims.map Dimension.id := by
  unfold normalizeScoresForDimensions
  rw [List.map_map]
  rfl

theorem lookup_normalize (input : Option (List (String × JsNum))) (dims : List Dimension)
    (lo hi : Int) (k : String) (h : ∃ d ∈ dims, d.id = k) :
    List.lookup k (normalizeScoresForDimensions input dims lo hi)
      = some (match input with
        | none => 0
        | some m =>
          match List.lookup k m with
          | some (.num v) => clamp v lo hi
          | some .nan => 0
          | none => 0) := by
  induction dims with
  | nil =>
    obtain ⟨d, hd, _⟩ := h
    simp at hd
  | cons d0 t ih =>
    unfold normalizeScoresForDimensions
    simp only [List.map, List.lookup]
    by_cases hk : k = d0.id
    · have hkb : (k == d0.id) = true := by simpa using hk
      rw [hkb]
      subst hk
      rfl
    · have hkb : (k == d0.id) = false := by simpa using hk
      rw [hkb]
      obtain ⟨d, hd, hdk⟩ := h
      rcases List.mem_cons.mp hd with rfl | hdt
      · exact absurd hdk (fun hh => hk hh.symm)
      · exact ih ⟨d, hdt, hdk⟩

theorem decodeLegacy_mem_bounds (rawValue : Option String) (dims : List Dimension)
    (m : ScoreMap) (h : decodeLegacyScoresFromUrl rawValue dims = some m) :
    ∀ e ∈ m, -10 ≤ e.2 ∧ e.2 ≤ 10 := by
  unfold decodeLegacyScoresFromUrl at h
  cases rawValue with
  | none => simp at h
  | some s =>
    dsimp only at h
    by_cases hs : (s == "") = true
    · rw [if_pos hs] at h
      simp at h
    · rw [if_neg hs] at h
      cases hp : (decodeURIComponent s).bind (fun t => jsonParse t) with
      | none => rw [hp] at h; simp at h
      | some parsed =>
        rw [hp] at h
        simp only [Option.some.injEq] at h
        subst h
        exact normalize_mem_bounds _ _ _ _ (by decide) (by decide)

/-- C5 -/
theorem c5_normalize_bounds (input : Option (List (String × JsNum))) (dims : List Dimension) :
    ((normalizeScoresForDimensions input dims (-20) 20).map Prod.fst = dims.map Dimension.id) ∧
    ((normalizeScoresForDimensions input dims (-10) 10).map Prod.fst = dims.map Dimension.id) ∧
    (∀ e ∈ normalizeScoresForDimensions input dims (-20) 20, -20 ≤ e.2 ∧ e.2 ≤ 20) ∧
    (∀ e ∈ normalizeScoresForDimensions input dims (-10) 10, -10 ≤ e.2 ∧ e.2 ≤ 10) ∧
    (∀ d ∈ dims, ∀ m v, input = some m → List.lookup d.id m = some (JsNum.num v) →
      List.lookup d.id (normalizeScoresForDimensions input dims (-20) 20)
        = some (clamp v (-20) 20)) ∧
    (∀ d ∈ dims,
      (input = none ∨ ∃ m, input = some m ∧
        (List.lookup d.id m = none ∨ List.lookup d.id m = some JsNum.nan)) →
      List.lookup d.id (normalizeScoresForDimensions input dims (-20) 20) = some 0) ∧
    (∀ rawValue m, decodeLegacyScoresFromUrl rawValue dims = some m →
      ∀ e ∈ m, -10 ≤ e.2 ∧ e.2 ≤ 10) := by
  refine ⟨normalize_keys input dims (-20) 20, normalize_keys input dims (-10) 10,
    normalize_mem_bounds input dims (-20) 20 (by decide) (by decide),
    normalize_mem_bounds input dims (-10) 10 (by decide) (by decide),
    ?_, ?_, fun rawValue m h => decodeLegacy_mem_bounds rawValue dims m h⟩
  · intro d hd m v hin hl
    rw [lookup_normalize input dims (-20) 20 d.id ⟨d, hd, rfl⟩]
    subst hin
    dsimp only
    rw [hl]
  · intro d hd hcase
    rw [lookup_normalize input dims (-20) 20 d.id ⟨d, hd, rfl⟩]
    rcases hcase with rfl | ⟨m, rfl, hl | hl⟩
    · rfl
    · dsimp only
      rw [hl]
    · dsimp only
      rw [hl]

/-- C6 -/
theorem c6_condition_fail_open (scoreMap : ScoreMap) (c : ResultCondition) :
    meetsCondition none scoreMap = true ∧
    ((∀ t, c.type = some t → t ∉ recognizedTypes) →
      ¬(strTruthy c.dim = true ∧ strTruthy c.type = false) →
      meetsCondition (some c) scoreMap = true) := by
  refine ⟨rfl, fun hty hleg => ?_⟩
  have hguard : (strTruthy c.dim && !strTruthy c.type) = false := by
    cases hd : strTruthy c.dim <;> cases ht : strTruthy c.type <;> simp_all
  unfold meetsCondition
  dsimp only
  rw [hguard]
  simp only [Bool.false_eq_true, if_false]
  cases hty' : c.type with
  | none => simp [hty']
  | some t =>
    have hmem : t ∉ recognizedTypes := hty t hty'
    simp only [recognizedTypes, List.mem_cons, List.not_mem_nil, or_false, not_or] at hmem
    obtain ⟨h1, h2, h3, h4, h5, h6, h7, h8, h9, h10, h11, h12, h13, h14, h15⟩ := hmem
    simp [hty', h1, h2, h3, h4, h5, h6, h7, h8, h9, h10, h11, h12, h13, h14, h15]

/-- C6 witness -/
theorem c6_condition_fail_open_witness :
    meetsCondition (some { type := some "frobnicate" }) [("calm", 1)] = true := by
  exact (c6_condition_fail_open [("calm", 1)] { type := some "frobnicate" }).2
    (fun t ht => by cases ht; decide) (by decide)

/-- C7 -/
theorem c7_ranking_tie_break (scoreMap : ScoreMap) (d : String) :
    (getSortedScores scoreMap).head?
      = scoreMap.find? (fun e => scoreMap.all (fun e2 => e2.2 ≤ e.2)) ∧
    meetsCondition (some { type := some "top_is", dim := some d }) scoreMap
      = (((scoreMap.find? (fun e => scoreMap.all (fun e2 => e2.2 ≤ e.2))).map
          (fun e => e.1)) == some d) := by
  have h1 : (getSortedScores scoreMap).head?
      = scoreMap.find? (fun e => scoreMap.all (fun e2 => e2.2 ≤ e.2)) := by
    rw [getSortedScores, head?_sortDescBy, firstMaxBy_eq_find?]
  refine ⟨h1, ?_⟩
  have h2 : meetsCondition (some { type := some "top_is", dim := some d }) scoreMap
      = (((getSortedScores scoreMap).head?.map (fun e => e.1)) == some d) := by
    cases hdb : (d == "") <;> simp only [meetsCondition, strTruthy, hdb] <;> rfl
  rw [h2, h1]

/-- C8 -/
theorem c8_weights_clamped_frame (weights : List (String × JsNum))
    (hnodup : (weights.map Prod.fst).Nodup) :
    ∀ (scores : ScoreMap) (d : String),
      (∀ δ, List.lookup d weights = some δ →
        List.lookup d (handleAnswerScores scores weights)
          = some (clamp ((List.lookup d scores).getD 0 + δ.finiteOr0) (-20) 20)) ∧
      (List.lookup d weights = none →
        List.lookup d (handleAnswerScores scores weights) = List.lookup d scores) := by
  revert hnodup
  induction weights with
  | nil =>
    intro _ scores d
    exact ⟨fun δ hδ => by simp [List.lookup] at hδ, fun _ => rfl⟩
  | cons w ws ih =>
    intro hnodup scores d
    obtain ⟨k, δ0⟩ := w
    have hnodup2 : (k :: ws.map Prod.fst).Nodup := hnodup
    have hnd := List.nodup_cons.mp hnodup2
    have hstep : handleAnswerScores scores ((k, δ0) :: ws)
        = handleAnswerScores
            (setAssoc scores k (clamp (sGet scores k + δ0.finiteOr0) (-20) 20)) ws := rfl
    by_cases hdk : d = k
    · subst hdk
      constructor
      · intro δ hδ
        have hδ0 : δ0 = δ := by simpa [List.lookup] using hδ
        subst hδ0
        rw [hstep]
        have hfree := (ih hnd.2
          (setAssoc scores d (clamp (sGet scores d + δ0.finiteOr0) (-20) 20)) d).2
          (lookup_eq_none_of_not_mem_keys ws d hnd.1)
        rw [hfree, lookup_setAssoc, if_pos rfl]
        rfl
      · intro hnone
        simp [List.lookup] at hnone
    · have hdkb : (d == k) = false := by simpa using hdk
      constructor
      · intro δ hδ
        have hδ' : List.lookup d ws = some δ := by
          simpa [List.lookup, hdkb] using hδ
        rw [hstep]
        rw [(ih hnd.2 (setAssoc scores k (clamp (sGet scores k + δ0.finiteOr0) (-20) 20)) d).1
          δ hδ']
        rw [lookup_setAssoc, if_neg hdk]
      · intro hnone
        have hnone' : List.lookup d ws = none := by
          simpa [List.lookup, hdkb] using hnone
        rw [hstep]
        rw [(ih hnd.2 (setAssoc scores k (clamp (sGet scores k + δ0.finiteOr0) (-20) 20)) d).2
          hnone']
        rw [lookup_setAssoc, if_neg hdk]

/-- C8 witness -/
theorem c8_weights_clamped_frame_witness :
    List.lookup "calm" (handleAnswerScores [("calm", 19), ("tempo", 2)]
      [("calm", JsNum.num 5), ("focus", JsNum.num 3)]) = some 20 ∧
    List.lookup "tempo" (handleAnswerScores [("calm", 19), ("tempo", 2)]
      [("calm", JsNum.num 5), ("focus", JsNum.num 3)]) = some 2 := by
  constructor
  · have h := (c8_weights_clamped_frame [("calm", JsNum.num 5), ("focus", JsNum.num 3)]
      (by decide) [("calm", 19), ("tempo", 2)] "calm").1 (JsNum.num 5) (by decide)
    simpa using h
  · have h := (c8_weights_clamped_frame [("calm", JsNum.num 5), ("focus", JsNum.num 3)]
      (by decide) [("calm", 19), ("tempo", 2)] "tempo").2 (by decide)
    simpa using h

/-- C10 -/
theorem c10_missing_dim_defaults_calm (scoreMap : ScoreMap) (v : Int) :
    meetsCondition (some { type := some "min", value := some v }) scoreMap
      = decide (sGet scoreMap "calm" ≥ v) ∧
    meetsCondition (some { type := some "max_le", value := some v }) scoreMap
      = decide (sGet scoreMap "calm" ≤ v) ∧
    meetsCondition (some { type := some "max_ge", value := some v }) scoreMap
      = decide (sGet scoreMap "calm" ≥ v) :=
  ⟨rfl, rfl, rfl⟩

/-- C5 witness -/
theorem c5_normalize_bounds_witness :
    (({ id := "calm" } : Dimension) ∈ [({ id := "calm" } : Dimension)]) ∧
    List.lookup "calm" (normalizeScoresForDimensions (some [("calm", JsNum.num 99)])
      [{ id := "calm" }] (-20) 20) = some (clamp 99 (-20) 20) := by
  refine ⟨by decide, ?_⟩
  exact (c5_normalize_bounds (some [("calm", JsNum.num 99)]) [{ id := "calm" }]).2.2.2.2.1
    { id := "calm" } (by decide) [("calm", JsNum.num 99)] 99 rfl (by decide)

/-- C9 counterexample -/
theorem c9_secondary_empty_id_counterexample :
    (computeResult
      [{ id := "r1",
         conditions := some [{ type := some "min", dim := some "a", value := some 100 }] }]
      [("a", 5), ("", 3)]).extra = some "Dominant: a" ∧
    (some "Dominant: a" : Option String) ≠ some "Dominant: a, Secondary: " := by
  exact ⟨by decide, by decide⟩

/-- C9 amended -/
theorem c9_fallback_refines_spec (results : List ResultProfile) (scoreMap : ScoreMap)
    (hnm : ∀ r ∈ results, resultMatchesConditions r scoreMap = false)
    (hs : scoreMap ≠ [])
    (hids : ∀ e ∈ scoreMap, e.1 ≠ "") :
    computeResult results scoreMap = specFallbackOutcome results scoreMap ∧
    ((sortDescBy (fun e => |e.2|) scoreMap).map (fun e => e.1)).head?
      = (scoreMap.find? (fun e => scoreMap.all (fun e2 => |e2.2| ≤ |e.2|))).map
          (fun e => e.1) := by
  constructor
  · unfold computeResult specFallbackOutcome
    rw [resolveConditionalResult_none_of_no_match results scoreMap hnm]
    dsimp only
    cases hdom : sortDescBy (fun e => |e.2|) scoreMap with
    | nil => exact absurd ((sortDescBy_eq_nil_iff _ _).mp hdom) hs
    | cons E rest' =>
      dsimp only [List.map]
      rw [strOrElse_empty]
      cases hsec : (rest'.map (fun e => e.1)).head? with
      | none => rfl
      | some sec =>
        have hsecne : sec ≠ "" := by
          have hmem : sec ∈ rest'.map (fun e => e.1) := List.mem_of_mem_head? hsec
          obtain ⟨e, hemem, rfl⟩ := List.mem_map.mp hmem
          have : e ∈ sortDescBy (fun e => |e.2|) scoreMap := by
            rw [hdom]; exact List.mem_cons_of_mem E hemem
          exact hids e ((mem_sortDescBy _ e scoreMap).mp this)
        dsimp only
        rw [show (sec == "") = false by simpa using hsecne]
        simp only [Bool.false_eq_true, if_false]
  · rw [List.head?_map, head?_sortDescBy, firstMaxBy_eq_find?]

/-- C9 witness -/
theorem c9_fallback_refines_spec_witness :
    computeResult
      [{ id := "r1",
         conditions := some [{ type := some "min", dim := some "calm", value := some 100 }] }]
      [("calm", 2), ("tempo", 1)]
    = specFallbackOutcome
      [{ id := "r1",
         conditions := some [{ type := some "min", dim := some "calm", value := some 100 }] }]
      [("calm", 2), ("tempo", 1)] := by
  exact (c9_fallback_refines_spec _ _ (by decide) (by decide) (by decide)).1

/-- C4 -/
theorem c4_decode_null_conditions (rawValue : Option String) :
    (decodeShareState rawValue = none ↔
      (rawValue = none ∨ ∃ s, rawValue = some s ∧
        (((fromBase64Url s).bind (fun t => jsonParse t) = none) ∨
         (∃ parsed, (fromBase64Url s).bind (fun t => jsonParse t) = some parsed ∧
           ¬(jsonVIs1 parsed = true ∧ jsonResultIdIsString parsed = true))))) ∧
    (∀ s parsed, rawValue = some s →
      (fromBase64Url s).bind (fun t => jsonParse t) = some parsed →
      jsonVIs1 parsed = true → jsonResultIdIsString parsed = true →
      decodeShareState rawValue = some parsed) := by
  constructor
  · cases rawValue with
    | none =>
      constructor
      · intro _
        exact Or.inl rfl
      · intro _
        rfl
    | some s =>
      simp only [decodeShareState]
      by_cases hs : (s == "") = true
      · rw [if_pos hs]
        have hs' : s = "" := by simpa using hs
        subst hs'
        constructor
        · intro _
          exact Or.inr ⟨"", rfl, Or.inl rfl⟩
        · intro _
          rfl
      · rw [if_neg hs]
        cases hp : (fromBase64Url s).bind (fun t => jsonParse t) with
        | none =>
          constructor
          · intro _
            exact Or.inr ⟨s, rfl, Or.inl hp⟩
          · intro _
            rfl
        | some parsed =>
          dsimp only
          by_cases hchk : (jsonVIs1 parsed && jsonResultIdIsString parsed) = true
          · rw [if_pos hchk]
            constructor
            · intro h
              simp at h
            · rintro (h | ⟨s', hs', hcase⟩)
              · simp at h
              · have hss : s' = s := by
                  injection hs' with h2
                  exact h2.symm
                subst hss
                rcases hcase with hnone | ⟨p', hp', hnchk⟩
                · rw [hp] at hnone
                  simp at hnone
                · rw [hp] at hp'
                  injection hp' with h3
                  subst h3
                  simp only [Bool.and_eq_true] at hchk
                  exact absurd ⟨hchk.1, hchk.2⟩ hnchk
          · rw [if_neg hchk]
            constructor
            · intro _
              refine Or.inr ⟨s, rfl, Or.inr ⟨parsed, hp, ?_⟩⟩
              rintro ⟨h1, h2⟩
              exact hchk (by rw [h1, h2]; rfl)
            · intro _
              rfl
  · intro s parsed hraw hp h1 h2
    subst hraw
    simp only [decodeShareState]
    have hsne : (s == "") = false := by
      cases hse : (s == "") with
      | false => rfl
      | true =>
        have : s = "" := by simpa using hse
        subst this
        rw [show (fromBase64Url "").bind (fun t => jsonParse t) = none from rfl] at hp
        simp at hp
    rw [if_neg (show ¬((s == "") = true) by simp [hsne])]
    rw [hp]
    dsimp only
    rw [if_pos (show (jsonVIs1 parsed && jsonResultIdIsString parsed) = true by rw [h1, h2]; rfl)]

/-- C4 witness -/
theorem c4_decode_null_conditions_witness :
    decodeShareState (some "not-base64!!") = none ∧
    decodeShareState (some "eyJ2IjoxLCJyZXN1bHRJZCI6IngifQ")
      = some (Json.obj [("v", Json.num 1), ("resultId", Json.str "x")]) := by
  constructor
  · exact (c4_decode_null_conditions (some "not-base64!!")).1.mpr
      (Or.inr ⟨"not-base64!!", rfl, Or.inl rfl⟩)
  · exact (c4_decode_null_conditions (some "eyJ2IjoxLCJyZXN1bHRJZCI6IngifQ")).2
      "eyJ2IjoxLCJyZXN1bHRJZCI6IngifQ"
      (Json.obj [("v", Json.num 1), ("resultId", Json.str "x")]) rfl rfl rfl rfl

/-! ### Base64 round-trip lemmas -/

theorem bytesToSextets_lt_64 : ∀ (bytes : List Nat), (∀ b ∈ bytes, b < 256) →
    ∀ sx ∈ bytesToSextets bytes, sx < 64
  | [], _ => by simp [bytesToSextets]
  | [a], h => by
    have ha := h a (by simp)
    intro sx hsx
    simp only [bytesToSextets, List.mem_cons, List.not_mem_nil, or_false] at hsx
    rcases hsx with rfl | rfl <;> omega
  | [a, b], h => by
    have ha := h a (by simp)
    have hb := h b (by simp)
    intro sx hsx
    simp only [bytesToSextets, List.mem_cons, List.not_mem_nil, or_false] at hsx
    rcases hsx with rfl | rfl | rfl <;> omega
  | a :: b :: c :: d :: rest, h => by
    have ha := h a (by simp)
    have hb := h b (by simp)
    have hc := h c (by simp)
    intro sx hsx
    simp only [bytesToSextets, List.mem_cons] at hsx
    rcases hsx with rfl | rfl | rfl | rfl | hmem
    · omega
    · omega
    · omega
    · omega
    · exact bytesToSextets_lt_64 (d :: rest) (fun x hx => h x (by simp [hx])) sx hmem
  | [a, b, c], h => by
    have ha := h a (by simp)
    have hb := h b (by simp)
    have hc := h c (by simp)
    intro sx hsx
    simp only [bytesToSextets, List.mem_cons, List.not_mem_nil, or_false] at hsx
    rcases hsx with rfl | rfl | rfl | rfl <;> omega

theorem sextetsToBytes_bytesToSextets : ∀ (bytes : List Nat), (∀ b ∈ bytes, b < 256) →
    sextetsToBytes (bytesToSextets bytes) = bytes
  | [], _ => rfl
  | [a], h => by
    have ha := h a (by simp)
    simp only [bytesToSextets, sextetsToBytes, List.cons.injEq, and_true]
    omega
  | [a, b], h => by
    have ha := h a (by simp)
    have hb := h b (by simp)
    simp only [bytesToSextets, sextetsToBytes, List.cons.injEq, and_true]
    constructor <;> omega
  | a :: b :: c :: d :: rest, h => by
    have ha := h a (by simp)
    have hb := h b (by simp)
    have hc := h c (by simp)
    have ih := sextetsToBytes_bytesToSextets (d :: rest) (fun x hx => h x (by simp [hx]))
    simp only [bytesToSextets, sextetsToBytes, List.cons.injEq]
    refine ⟨by omega, by omega, by omega, ih⟩
  | [a, b, c], h => by
    have ha := h a (by simp)
    have hb := h b (by simp)
    have hc := h c (by simp)
    simp only [bytesToSextets, sextetsToBytes, List.cons.injEq, and_true]
    refine ⟨by omega, by omega, by omega⟩

theorem b64_char_facts : ∀ i : Fin 64,
    b64NatOfChar (b64CharOfNat i.val) = some i.val ∧
    (b64CharOfNat i.val == '=') = false ∧
    urlToStdChar (stdToUrlChar (b64CharOfNat i.val)) = b64CharOfNat i.val ∧
    isB64Ws (stdToUrlChar (b64CharOfNat i.val)) = false ∧
    (stdToUrlChar (b64CharOfNat i.val) == '=') = false ∧
    isB64Ws (b64CharOfNat i.val) = false := by decide

theorem b64PadFor_add_three (n : Nat) : b64PadFor (n + 3) = b64PadFor n := by
  unfold b64PadFor
  rw [show (n + 3) % 3 = n % 3 by omega]

theorem b64_encode_length : ∀ (bytes : List Nat),
    ((bytesToSextets bytes).length + (b64PadFor bytes.length).length) % 4 = 0 ∧
    (b64PadFor bytes.length).length ≤ 2
  | [] => by simp [bytesToSextets, b64PadFor]
  | [a] => by simp [bytesToSextets, b64PadFor]
  | [a, b] => by simp [bytesToSextets, b64PadFor]
  | a :: b :: c :: d :: rest => by
    have ih := b64_encode_length (d :: rest)
    simp only [bytesToSextets, List.length_cons]
    rw [show rest.length + 1 + 1 + 1 + 1 = (rest.length + 1) + 3 by omega,
      b64PadFor_add_three]
    simp only [List.length_cons] at ih
    omega
  | [a, b, c] => by simp [bytesToSextets, b64PadFor]

theorem b64PadFor_all_eq (n : Nat) : ∀ c ∈ b64PadFor n, c = '=' := by
  unfold b64PadFor
  split <;> simp_all

theorem map_id_of_mem {α : Type} (f : α → α) : ∀ (l : List α), (∀ c ∈ l, f c = c) →
    l.map f = l
  | [], _ => rfl
  | x :: xs, h => by
    simp only [List.map, h x (by simp), List.cons.injEq, true_and]
    exact map_id_of_mem f xs (fun c hc => h c (by simp [hc]))

theorem dropWhile_append_all {p : Char → Bool} : ∀ (l1 l2 : List Char),
    (∀ c ∈ l1, p c = true) →
    List.dropWhile p (l1 ++ l2) = List.dropWhile p l2
  | [], _, _ => rfl
  | c :: t, l2, h => by
    simp only [List.cons_append, List.dropWhile, h c (by simp)]
    exact dropWhile_append_all t l2 (fun x hx => h x (by simp [hx]))

theorem dropTrailingEqAll_append (xs pad : List Char)
    (hxs : ∀ c ∈ xs, (c == '=') = false) (hpad : ∀ c ∈ pad, c = '=') :
    dropTrailingEqAll (xs ++ pad) = xs := by
  unfold dropTrailingEqAll
  rw [List.reverse_append]
  rw [dropWhile_append_all pad.reverse xs.reverse (fun c hc => by
    rw [hpad c (List.mem_reverse.mp hc)]
    rfl)]
  cases hxr : xs.reverse with
  | nil =>
    have hx : xs = [] := by simpa using congrArg List.reverse hxr
    subst hx
    rfl
  | cons c t =>
    have hc : (c == '=') = false := hxs c (by
      rw [← List.mem_reverse, hxr]
      exact List.mem_cons_self _ _)
    simp only [List.dropWhile, hc]
    exact (by simpa using congrArg List.reverse hxr : xs = (c :: t).reverse).symm

theorem filter_not_ws (l : List Char) (h : ∀ c ∈ l, isB64Ws c = false) :
    l.filter (fun c => !isB64Ws c) = l :=
  List.filter_eq_self.mpr (fun c hc => by rw [h c hc]; rfl)

theorem mapM_b64NatOfChar : ∀ (l : List Nat), (∀ i ∈ l, i < 64) →
    (l.map b64CharOfNat).mapM b64NatOfChar = some l
  | [], _ => rfl
  | x :: xs, h => by
    have hx := (b64_char_facts ⟨x, h x (by simp)⟩).1
    simp only [List.map, List.mapM_cons, hx,
      mapM_b64NatOfChar xs (fun i hi => h i (by simp [hi]))]
    rfl

theorem dropTrailingEq2_append (xs pad : List Char) (hxs : ∀ c ∈ xs, (c == '=') = false)
    (hpad : pad = [] ∨ pad = ['='] ∨ pad = ['=', '=']) :
    dropTrailingEq2 (xs ++ pad) = xs := by
  have hxsne : ∀ r : List Char, xs.reverse ≠ '=' :: r := by
    intro r hr
    have : ('=' : Char) ∈ xs := by
      rw [← List.mem_reverse, hr]
      exact List.mem_cons_self _ _
    simpa using hxs '=' this
  unfold dropTrailingEq2
  rcases hpad with rfl | rfl | rfl
  · rw [List.append_nil]
    split
    · next r heq => exact absurd heq (hxsne _)
    · next r heq => exact absurd heq (hxsne _)
    · rfl
  · rw [List.reverse_append]
    simp only [List.reverse_cons, List.reverse_nil, List.nil_append, List.singleton_append]
    rw [List.reverse_reverse]
  · rw [List.reverse_append]
    simp only [List.reverse_cons, List.reverse_nil, List.nil_append, List.cons_append,
      List.singleton_append]
    rw [List.reverse_reverse]

theorem b64PadFor_shape (n : Nat) :
    b64PadFor n = [] ∨ b64PadFor n = ['='] ∨ b64PadFor n = ['=', '='] := by
  unfold b64PadFor
  split
  · exact Or.inr (Or.inr rfl)
  · exact Or.inr (Or.inl rfl)
  · exact Or.inl rfl

theorem btoa_eq (s : String) (h256 : ∀ c ∈ s.data, c.toNat < 256) :
    btoa s = some (String.mk ((bytesToSextets (s.data.map Char.toNat)).map b64CharOfNat
      ++ b64PadFor (s.data.map Char.toNat).length)) := by
  unfold btoa
  rw [if_pos]
  rw [List.all_eq_true]
  intro b hb
  obtain ⟨c, hc, rfl⟩ := List.mem_map.mp hb
  exact decide_eq_true (h256 c hc)

theorem atob_encode (bytes : List Nat) (hb : ∀ b ∈ bytes, b < 256) :
    atob (String.mk ((bytesToSextets bytes).map b64CharOfNat ++ b64PadFor bytes.length))
      = some (String.mk (bytes.map Char.ofNat)) := by
  have hsex64 : ∀ i ∈ bytesToSextets bytes, i < 64 := bytesToSextets_lt_64 bytes hb
  have hxs : ∀ c ∈ (bytesToSextets bytes).map b64CharOfNat, (c == '=') = false := by
    intro c hc
    obtain ⟨i, hi, rfl⟩ := List.mem_map.mp hc
    exact (b64_char_facts ⟨i, hsex64 i hi⟩).2.1
  have hlen := b64_encode_length bytes
  unfold atob
  rw [show (String.mk ((bytesToSextets bytes).map b64CharOfNat ++ b64PadFor bytes.length)).data
      = (bytesToSextets bytes).map b64CharOfNat ++ b64PadFor bytes.length from rfl]
  rw [filter_not_ws _ (by
    intro c hc
    rcases List.mem_append.mp hc with hc1 | hc2
    · obtain ⟨i, hi, rfl⟩ := List.mem_map.mp hc1
      exact (b64_char_facts ⟨i, hsex64 i hi⟩).2.2.2.2.2
    · rw [b64PadFor_all_eq bytes.length c hc2]
      rfl)]
  dsimp only
  rw [if_pos (show ((((bytesToSextets bytes).map b64CharOfNat
      ++ b64PadFor bytes.length).length % 4 == 0) = true) by
    simp only [beq_iff_eq, List.length_append, List.length_map]
    exact hlen.1)]
  rw [dropTrailingEq2_append _ _ hxs (b64PadFor_shape bytes.length)]
  rw [if_neg (show ¬ ((((bytesToSextets bytes).map b64CharOfNat).length % 4 == 1) = true) by
    simp only [beq_iff_eq, List.length_map]
    omega)]
  rw [mapM_b64NatOfChar (bytesToSextets bytes) hsex64]
  dsimp only
  rw [sextetsToBytes_bytesToSextets bytes hb]

theorem toBase64Url_eq (s : String) (h256 : ∀ c ∈ s.data, c.toNat < 256) :
    toBase64Url s = some (String.mk
      (((bytesToSextets (s.data.map Char.toNat)).map b64CharOfNat).map stdToUrlChar)) := by
  have hsex64 : ∀ i ∈ bytesToSextets (s.data.map Char.toNat), i < 64 :=
    bytesToSextets_lt_64 _ (by
      intro b hb
      obtain ⟨c, hc, rfl⟩ := List.mem_map.mp hb
      exact h256 c hc)
  unfold toBase64Url
  rw [btoa_eq s h256]
  simp only [Option.map_some']
  congr 2
  rw [List.map_append]
  rw [map_id_of_mem stdToUrlChar (b64PadFor (s.data.map Char.toNat).length) (by
    intro c hc
    rw [b64PadFor_all_eq _ c hc]
    rfl)]
  rw [dropTrailingEqAll_append _ _ (by
    intro c hc
    rw [List.map_map] at hc
    obtain ⟨i, hi, rfl⟩ := List.mem_map.mp hc
    exact (b64_char_facts ⟨i, hsex64 i hi⟩).2.2.2.2.1)
    (b64PadFor_all_eq (s.data.map Char.toNat).length)]

theorem fromBase64Url_toBase64Url (s : String) (h256 : ∀ c ∈ s.data, c.toNat < 256) :
    fromBase64Url (String.mk
      (((bytesToSextets (s.data.map Char.toNat)).map b64CharOfNat).map stdToUrlChar))
      = some s := by
  have hsex64 : ∀ i ∈ bytesToSextets (s.data.map Char.toNat), i < 64 :=
    bytesToSextets_lt_64 _ (by
      intro b hb
      obtain ⟨c, hc, rfl⟩ := List.mem_map.mp hb
      exact h256 c hc)
  have hlen := b64_encode_length (s.data.map Char.toNat)
  unfold fromBase64Url
  dsimp only
  rw [List.map_map, List.map_map]
  rw [List.map_congr_left (show ∀ i ∈ bytesToSextets (s.data.map Char.toNat),
      ((urlToStdChar ∘ stdToUrlChar) ∘ b64CharOfNat) i = b64CharOfNat i by
    intro i hi
    exact (b64_char_facts ⟨i, hsex64 i hi⟩).2.2.1)]
  simp only [List.length_map]
  rw [show List.replicate
        ((4 - (bytesToSextets (s.data.map Char.toNat)).length % 4) % 4) '='
      = b64PadFor (s.data.map Char.toNat).length from by
    have hpadlen : (4 - (bytesToSextets (s.data.map Char.toNat)).length % 4) % 4
        = (b64PadFor (s.data.map Char.toNat).length).length := by omega
    rw [hpadlen]
    rcases b64PadFor_shape (s.data.map Char.toNat).length with hsh | hsh | hsh <;>
      rw [hsh] <;> rfl]
  rw [atob_encode (s.data.map Char.toNat) (by
    intro b hb
    obtain ⟨c, hc, rfl⟩ := List.mem_map.mp hb
    exact h256 c hc)]
  congr 1
  rw [List.map_map]
  rw [List.map_congr_left (show ∀ c ∈ s.data, (Char.ofNat ∘ Char.toNat) c = id c by
    intro c _
    exact Char.ofNat_toNat c)]
  rw [List.map_id]

/-! ### JSON parser round-trip lemmas -/

theorem digit_char_facts : ∀ d : Fin 10,
    isDigitChar (Char.ofNat (48 + d.val)) = true ∧
    (Char.ofNat (48 + d.val)).toNat = 48 + d.val ∧
    ((Char.ofNat (48 + d.val)) == '0') = decide (d.val = 0) ∧
    ((Char.ofNat (48 + d.val)) == '-') = false ∧
    isJsonWs (Char.ofNat (48 + d.val)) = false ∧
    Char.ofNat (48 + d.val) ≠ ']' ∧ Char.ofNat (48 + d.val) ≠ '\x7d' ∧
    Char.ofNat (48 + d.val) ≠ 'n' ∧ Char.ofNat (48 + d.val) ≠ 't' ∧
    Char.ofNat (48 + d.val) ≠ 'f' ∧ Char.ofNat (48 + d.val) ≠ '"' ∧
    Char.ofNat (48 + d.val) ≠ '[' ∧ Char.ofNat (48 + d.val) ≠ '\x7b' := by decide

theorem natToDigitsAux_head : ∀ fuel n, n < fuel →
    ∃ d cs, d < 10 ∧ natToDigitsAux fuel n = Char.ofNat (48 + d) :: cs ∧ (n ≠ 0 → d ≠ 0)
  | 0, n, h => absurd h (by omega)
  | fuel + 1, n, h => by
    unfold natToDigitsAux
    by_cases hn : n < 10
    · rw [if_pos hn]
      exact ⟨n, [], hn, rfl, fun h0 => h0⟩
    · rw [if_neg hn]
      obtain ⟨d, cs, hd, heq, hne⟩ := natToDigitsAux_head fuel (n / 10) (by omega)
      rw [heq]
      exact ⟨d, cs ++ [Char.ofNat (48 + n % 10)], hd, rfl, fun _ => hne (by omega)⟩

theorem parseDigitsAcc_natToDigitsAux : ∀ fuel n acc rest, n < fuel →
    parseDigitsAcc (natToDigitsAux fuel n ++ rest) acc
      = parseDigitsAcc rest (acc * 10 ^ (natToDigitsAux fuel n).length + n)
  | 0, n, _, _, h => absurd h (by omega)
  | fuel + 1, n, acc, rest, h => by
    unfold natToDigitsAux
    by_cases hn : n < 10
    · rw [if_pos hn]
      have hfacts := digit_char_facts ⟨n, hn⟩
      simp only [List.cons_append, List.nil_append, parseDigitsAcc, hfacts.1, if_true,
        List.length_cons, List.length_nil, zero_add, pow_one, hfacts.2.1]
      rw [show 48 + n - 48 = n by omega]
      rfl
    · rw [if_neg hn]
      rw [List.append_assoc]
      rw [parseDigitsAcc_natToDigitsAux fuel (n / 10) acc _ (by omega)]
      have hfacts := digit_char_facts ⟨n % 10, by omega⟩
      simp only [List.singleton_append, parseDigitsAcc, hfacts.1, if_true, hfacts.2.1]
      simp only [List.length_append, List.length_cons, List.length_nil]
      rw [show 48 + n % 10 - 48 = n % 10 by omega]
      rw [show (natToDigitsAux fuel (n / 10)).length + (0 + 1)
        = (natToDigitsAux fuel (n / 10)).length + 1 by omega]
      rw [pow_succ, ← Nat.mul_assoc]
      have hgen : ∀ A : Nat, (A + n / 10) * 10 + n % 10 = A * 10 + n := by
        intro A
        rw [Nat.add_mul]
        omega
      rw [hgen]
      rfl

theorem parseDigitsAcc_stop (rest : List Char) (acc : Nat)
    (hrest : ∀ d, rest.head? = some d → isDigitChar d = false) :
    parseDigitsAcc rest acc = (acc, rest) := by
  cases rest with
  | nil => rfl
  | cons d t =>
    simp only [parseDigitsAcc, hrest d rfl]
    rfl

theorem parseNumCore_natToChars (n : Nat) (rest : List Char)
    (hrest : ∀ d, rest.head? = some d → isDigitChar d = false) :
    parseNumCore (natToChars n ++ rest) = some (n, rest) := by
  by_cases hn : n = 0
  · subst hn
    show parseNumCore ('0' :: rest) = some (0, rest)
    cases rest with
    | nil => rfl
    | cons d t =>
      simp only [parseNumCore]
      rw [if_pos (show (('0' == '0') = true) from rfl)]
      rw [hrest d rfl]
      rfl
  · obtain ⟨d, cs, hd, heq, hne⟩ := natToDigitsAux_head (n + 1) n (by omega)
    have hfacts := digit_char_facts ⟨d, hd⟩
    have hchars : natToChars n = Char.ofNat (48 + d) :: cs := heq
    rw [hchars]
    simp only [List.cons_append, parseNumCore]
    rw [if_neg (by
      rw [hfacts.2.2.1]
      simp [hne hn])]
    rw [if_pos hfacts.1]
    rw [show Char.ofNat (48 + d) :: (cs ++ rest) = natToChars n ++ rest by rw [hchars]; rfl]
    rw [show natToChars n = natToDigitsAux (n + 1) n from rfl]
    rw [parseDigitsAcc_natToDigitsAux (n + 1) n 0 rest (by omega)]
    rw [Nat.zero_mul, Nat.zero_add]
    rw [parseDigitsAcc_stop rest n hrest]

theorem parseJsonNumber_intToChars (i : Int) (rest : List Char)
    (hrest : ∀ d, rest.head? = some d → isDigitChar d = false) :
    parseJsonNumber (intToChars i ++ rest) = some (i, rest) := by
  by_cases hi : i < 0
  · rw [show intToChars i = '-' :: natToChars i.natAbs by unfold intToChars; rw [if_pos hi]]
    simp only [List.cons_append, parseJsonNumber, List.head?, List.tail]
    rw [if_pos (show ((some '-' == some '-') = true) from rfl)]
    rw [parseNumCore_natToChars i.natAbs rest hrest]
    simp only [Option.map_some']
    congr 2
    omega
  · rw [show intToChars i = natToChars i.toNat by unfold intToChars; rw [if_neg hi]]
    by_cases hn : i.toNat = 0
    · rw [hn]
      show parseJsonNumber ('0' :: rest) = some (i, rest)
      simp only [parseJsonNumber, List.head?, List.tail]
      rw [if_neg (by decide)]
      rw [show ('0' :: rest : List Char) = natToChars 0 ++ rest from rfl]
      rw [parseNumCore_natToChars 0 rest hrest]
      simp only [Option.map_some']
      congr 2
      omega
    · obtain ⟨d, cs, hd, heq, hne⟩ := natToDigitsAux_head (i.toNat + 1) i.toNat (by omega)
      have hfacts := digit_char_facts ⟨d, hd⟩
      have hchars : natToChars i.toNat = Char.ofNat (48 + d) :: cs := heq
      rw [hchars]
      simp only [List.cons_append, parseJsonNumber, List.head?, List.tail]
      rw [if_neg (by
        intro hcon
        have : (Char.ofNat (48 + d) == '-') = true := by
          simpa using hcon
        rw [hfacts.2.2.2.1] at this
        exact absurd this (by simp))]
      rw [show Char.ofNat (48 + d) :: (cs ++ rest) = natToChars i.toNat ++ rest by
        rw [hchars]; rfl]
      rw [parseNumCore_natToChars i.toNat rest hrest]
      simp only [Option.map_some']
      congr 2
      omega

theorem hexVal_hexLowerDigit : ∀ n : Fin 16, hexVal (hexLowerDigit n.val) = some n.val := by
  decide

set_option maxHeartbeats 1600000 in
theorem parseStrAux_cons_plain (c : Char) (rest : List Char)
    (hq : c ≠ '"') (hb : c ≠ '\\') (hctl : ¬ c.toNat < 32) :
    parseStrAux (c :: rest) = (parseStrAux rest).map (fun p => (c :: p.1, p.2)) := by
  unfold parseStrAux
  split
  · next heq => exact absurd heq.symm (by simp)
  · next heq =>
    exfalso
    exact hq (by injection heq)
  · next heq =>
    exfalso
    exact hb (by injection heq)
  · next heq =>
    exfalso
    exact hb (by injection heq)
  · next heq =>
    exfalso
    exact hb (by injection heq)
  · next heq =>
    exfalso
    exact hb (by injection heq)
  · next heq =>
    exfalso
    exact hb (by injection heq)
  · next heq =>
    exfalso
    exact hb (by injection heq)
  · next heq =>
    exfalso
    exact hb (by injection heq)
  · next heq =>
    exfalso
    exact hb (by injection heq)
  · next heq =>
    exfalso
    exact hb (by injection heq)
  · next heq =>
    exfalso
    exact hb (by injection heq)
  · rename_i heq1 heq2
    injection heq2 with h1 h2
    subst h1
    subst h2
    rw [if_neg (by simpa using hctl)]
    conv_lhs => unfold parseStrAux

theorem skipJsonWs_cons (c : Char) (cs : List Char) (h : isJsonWs c = false) :
    skipJsonWs (c :: cs) = c :: cs := by
  unfold skipJsonWs
  simp [List.dropWhile, h]

set_option maxHeartbeats 1600000 in
theorem parseStrAux_u00 (d1 d2 : Char) (a b : Nat) (T : List Char)
    (h1 : hexVal d1 = some a) (h2 : hexVal d2 = some b) (hcp : a * 16 + b < 55296) :
    parseStrAux ('\\' :: 'u' :: '0' :: '0' :: d1 :: d2 :: T)
      = (parseStrAux T).map (fun p => (Char.ofNat (a * 16 + b) :: p.1, p.2)) := by
  unfold parseStrAux
  split
  · next heq => exact absurd heq.symm (by simp)
  · next heq =>
    injection heq with hh ht
    exact absurd hh (by decide)
  · next heq =>
    injection heq with hh ht
    injection ht with hh2 ht2
    exact absurd hh2 (by decide)
  · next heq =>
    injection heq with hh ht
    injection ht with hh2 ht2
    exact absurd hh2 (by decide)
  · next heq =>
    injection heq with hh ht
    injection ht with hh2 ht2
    exact absurd hh2 (by decide)
  · next heq =>
    injection heq with hh ht
    injection ht with hh2 ht2
    exact absurd hh2 (by decide)
  · next heq =>
    injection heq with hh ht
    injection ht with hh2 ht2
    exact absurd hh2 (by decide)
  · next heq =>
    injection heq with hh ht
    injection ht with hh2 ht2
    exact absurd hh2 (by decide)
  · next heq =>
    injection heq with hh ht
    injection ht with hh2 ht2
    exact absurd hh2 (by decide)
  · next heq =>
    injection heq with hh ht
    injection ht with hh2 ht2
    exact absurd hh2 (by decide)
  · next heq =>
    injection heq with hh ht
    injection ht with hh2 ht2
    injection ht2 with h3eq ht3
    injection ht3 with h4eq ht4
    injection ht4 with h5eq ht5
    injection ht5 with h6eq ht6
    subst h3eq
    subst h4eq
    subst h5eq
    subst h6eq
    subst ht6
    rw [show hexVal '0' = some 0 from rfl, h1, h2]
    dsimp only
    rw [if_pos (Or.inl (show 0 * 4096 + 0 * 256 + a * 16 + b < 55296 by omega))]
    rw [show 0 * 4096 + 0 * 256 + a * 16 + b = a * 16 + b by omega]
    conv_lhs => unfold parseStrAux
  · rename_i hu heq
    exfalso
    injection heq with hh ht
    exact hu '0' '0' d1 d2 T ht.symm
  · rename_i hbs heq
    exfalso
    injection heq with hh ht
    exact hbs hh.symm

set_option maxHeartbeats 3200000 in
theorem parseStrAux_escape : ∀ (s rest : List Char),
    parseStrAux (s.flatMap escapeJsonChar ++ '"' :: rest) = some (s, rest)
  | [], rest => by
    rw [show (([] : List Char).flatMap escapeJsonChar : List Char) = [] from rfl,
      List.nil_append]
    rfl
  | c :: s, rest => by
    rw [show (c :: s).flatMap escapeJsonChar
      = escapeJsonChar c ++ s.flatMap escapeJsonChar from rfl]
    rw [List.append_assoc]
    by_cases h1 : c = '"'
    · subst h1
      rw [show escapeJsonChar '"' = ['\\', '"'] from rfl]
      rw [show (['\\', '"'] : List Char) ++ (s.flatMap escapeJsonChar ++ '"' :: rest)
        = '\\' :: '"' :: (s.flatMap escapeJsonChar ++ '"' :: rest) from rfl]
      rw [show parseStrAux ('\\' :: '"' :: (s.flatMap escapeJsonChar ++ '"' :: rest))
        = (parseStrAux (s.flatMap escapeJsonChar ++ '"' :: rest)).map
            (fun p => ('"' :: p.1, p.2)) from rfl]
      rw [parseStrAux_escape s rest]
      rfl
    by_cases h2 : c = '\\'
    · subst h2
      rw [show escapeJsonChar '\\' = ['\\', '\\'] from rfl]
      rw [show (['\\', '\\'] : List Char) ++ (s.flatMap escapeJsonChar ++ '"' :: rest)
        = '\\' :: '\\' :: (s.flatMap escapeJsonChar ++ '"' :: rest) from rfl]
      rw [show parseStrAux ('\\' :: '\\' :: (s.flatMap escapeJsonChar ++ '"' :: rest))
        = (parseStrAux (s.flatMap escapeJsonChar ++ '"' :: rest)).map
            (fun p => ('\\' :: p.1, p.2)) from rfl]
      rw [parseStrAux_escape s rest]
      rfl
    by_cases h3 : c = '\x08'
    · subst h3
      rw [show escapeJsonChar '\x08' = ['\\', 'b'] from rfl]
      rw [show (['\\', 'b'] : List Char) ++ (s.flatMap escapeJsonChar ++ '"' :: rest)
        = '\\' :: 'b' :: (s.flatMap escapeJsonChar ++ '"' :: rest) from rfl]
      rw [show parseStrAux ('\\' :: 'b' :: (s.flatMap escapeJsonChar ++ '"' :: rest))
        = (parseStrAux (s.flatMap escapeJsonChar ++ '"' :: rest)).map
            (fun p => ('\x08' :: p.1, p.2)) from rfl]
      rw [parseStrAux_escape s rest]
      rfl
    by_cases h4 : c = '\t'
    · subst h4
      rw [show escapeJsonChar '\t' = ['\\', 't'] from rfl]
      rw [show (['\\', 't'] : List Char) ++ (s.flatMap escapeJsonChar ++ '"' :: rest)
        = '\\' :: 't' :: (s.flatMap escapeJsonChar ++ '"' :: rest) from rfl]
      rw [show parseStrAux ('\\' :: 't' :: (s.flatMap escapeJsonChar ++ '"' :: rest))
        = (parseStrAux (s.flatMap escapeJsonChar ++ '"' :: rest)).map
            (fun p => ('\t' :: p.1, p.2)) from rfl]
      rw [parseStrAux_escape s rest]
      rfl
    by_cases h5 : c = '\n'
    · subst h5
      rw [show escapeJsonChar '\n' = ['\\', 'n'] from rfl]
      rw [show (['\\', 'n'] : List Char) ++ (s.flatMap escapeJsonChar ++ '"' :: rest)
        = '\\' :: 'n' :: (s.flatMap escapeJsonChar ++ '"' :: rest) from rfl]
      rw [show parseStrAux ('\\' :: 'n' :: (s.flatMap escapeJsonChar ++ '"' :: rest))
        = (parseStrAux (s.flatMap escapeJsonChar ++ '"' :: rest)).map
            (fun p => ('\n' :: p.1, p.2)) from rfl]
      rw [parseStrAux_escape s rest]
      rfl
    by_cases h6 : c = '\x0c'
    · subst h6
      rw [show escapeJsonChar '\x0c' = ['\\', 'f'] from rfl]
      rw [show (['\\', 'f'] : List Char) ++ (s.flatMap escapeJsonChar ++ '"' :: rest)
        = '\\' :: 'f' :: (s.flatMap escapeJsonChar ++ '"' :: rest) from rfl]
      rw [show parseStrAux ('\\' :: 'f' :: (s.flatMap escapeJsonChar ++ '"' :: rest))
        = (parseStrAux (s.flatMap escapeJsonChar ++ '"' :: rest)).map
            (fun p => ('\x0c' :: p.1, p.2)) from rfl]
      rw [parseStrAux_escape s rest]
      rfl
    by_cases h7 : c = '\x0d'
    · subst h7
      rw [show escapeJsonChar '\x0d' = ['\\', 'r'] from rfl]
      rw [show (['\\', 'r'] : List Char) ++ (s.flatMap escapeJsonChar ++ '"' :: rest)
        = '\\' :: 'r' :: (s.flatMap escapeJsonChar ++ '"' :: rest) from rfl]
      rw [show parseStrAux ('\\' :: 'r' :: (s.flatMap escapeJsonChar ++ '"' :: rest))
        = (parseStrAux (s.flatMap escapeJsonChar ++ '"' :: rest)).map
            (fun p => ('\x0d' :: p.1, p.2)) from rfl]
      rw [parseStrAux_escape s rest]
      rfl
    by_cases h8 : c.toNat < 32
    · rw [show escapeJsonChar c = ['\\', 'u', '0', '0', hexLowerDigit (c.toNat / 16),
          hexLowerDigit (c.toNat % 16)] by
        unfold escapeJsonChar
        rw [if_neg (by simpa using h1), if_neg (by simpa using h2),
          if_neg (by simpa using h3), if_neg (by simpa using h4),
          if_neg (by simpa using h5), if_neg (by simpa using h6),
          if_neg (by simpa using h7), if_pos h8]]
      rw [show (['\\', 'u', '0', '0', hexLowerDigit (c.toNat / 16),
          hexLowerDigit (c.toNat % 16)] : List Char)
          ++ (s.flatMap escapeJsonChar ++ '"' :: rest)
        = '\\' :: 'u' :: '0' :: '0' :: hexLowerDigit (c.toNat / 16)
          :: hexLowerDigit (c.toNat % 16) :: (s.flatMap escapeJsonChar ++ '"' :: rest)
        from rfl]
      rw [parseStrAux_u00 (hexLowerDigit (c.toNat / 16)) (hexLowerDigit (c.toNat % 16))
        (c.toNat / 16) (c.toNat % 16) _
        (hexVal_hexLowerDigit ⟨c.toNat / 16, by omega⟩)
        (hexVal_hexLowerDigit ⟨c.toNat % 16, by omega⟩)
        (by omega)]
      rw [parseStrAux_escape s rest]
      rw [show c.toNat / 16 * 16 + c.toNat % 16 = c.toNat by omega]
      rw [Char.ofNat_toNat]
      rfl
    · rw [show escapeJsonChar c = [c] by
        unfold escapeJsonChar
        rw [if_neg (by simpa using h1), if_neg (by simpa using h2),
          if_neg (by simpa using h3), if_neg (by simpa using h4),
          if_neg (by simpa using h5), if_neg (by simpa using h6),
          if_neg (by simpa using h7), if_neg h8]]
      rw [show ([c] : List Char) ++ (s.flatMap escapeJsonChar ++ '"' :: rest)
        = c :: (s.flatMap escapeJsonChar ++ '"' :: rest) from rfl]
      rw [parseStrAux_cons_plain c _ h1 h2 h8]
      rw [parseStrAux_escape s rest]
      rfl

theorem sepOk_not_digit (rest : List Char) (h : sepOk rest = true) :
    ∀ d, rest.head? = some d → isDigitChar d = false := by
  intro d hd
  cases rest with
  | nil => simp at hd
  | cons c t =>
    have hc : c = d := by simpa using hd
    subst hc
    unfold sepOk at h
    rcases Bool.or_eq_true_iff.mp h with h' | h'
    · rcases Bool.or_eq_true_iff.mp h' with h'' | h''
      · rw [show c = ',' by simpa using h'']
        rfl
      · rw [show c = ']' by simpa using h'']
        rfl
    · rw [show c = '\x7d' by simpa using h']
      rfl

set_option maxHeartbeats 1600000 in
theorem parseJsonValue_not_special (fuel : Nat) (c : Char) (rest : List Char)
    (hws : isJsonWs c = false) (hn : c ≠ 'n') (ht : c ≠ 't') (hf : c ≠ 'f')
    (hq : c ≠ '"') (hbr : c ≠ '[') (hbc : c ≠ '\x7b') :
    parseJsonValue (fuel + 1) (c :: rest)
      = if c == '-' || isDigitChar c then
          (parseJsonNumber (c :: rest)).map (fun p => (Json.num p.1, p.2))
        else none := by
  unfold parseJsonValue
  rw [skipJsonWs_cons c rest hws]
  split
  · next heq =>
    injection heq with hh _
    exact absurd hh hn
  · next heq =>
    injection heq with hh _
    exact absurd hh ht
  · next heq =>
    injection heq with hh _
    exact absurd hh hf
  · next heq =>
    injection heq with hh _
    exact absurd hh hq
  · next heq =>
    injection heq with hh _
    exact absurd hh hbr
  · next heq =>
    injection heq with hh _
    exact absurd hh hbc
  · next heq =>
    injection heq with hh htl
    subst hh
    subst htl
    rfl
  · next heq => exact absurd heq.symm (by simp)

theorem intToChars_head (i : Int) : ∃ c t, intToChars i = c :: t ∧
    isJsonWs c = false ∧ c ≠ ']' ∧ c ≠ '\x7d' ∧ c ≠ 'n' ∧ c ≠ 't' ∧ c ≠ 'f' ∧
    c ≠ '"' ∧ c ≠ '[' ∧ c ≠ '\x7b' ∧ (c == '-' || isDigitChar c) = true := by
  by_cases hi : i < 0
  · refine ⟨'-', natToChars i.natAbs, ?_, by decide, by decide, by decide, by decide,
      by decide, by decide, by decide, by decide, by decide, by decide⟩
    unfold intToChars
    rw [if_pos hi]
  · obtain ⟨d, cs, hd, heq, _⟩ := natToDigitsAux_head (i.toNat + 1) i.toNat (by omega)
    have hfacts := digit_char_facts ⟨d, hd⟩
    refine ⟨Char.ofNat (48 + d), cs, ?_, hfacts.2.2.2.2.1, hfacts.2.2.2.2.2.1,
      hfacts.2.2.2.2.2.2.1, hfacts.2.2.2.2.2.2.2.1, hfacts.2.2.2.2.2.2.2.2.1,
      hfacts.2.2.2.2.2.2.2.2.2.1, hfacts.2.2.2.2.2.2.2.2.2.2.1,
      hfacts.2.2.2.2.2.2.2.2.2.2.2.1, hfacts.2.2.2.2.2.2.2.2.2.2.2.2,
      by rw [hfacts.1, Bool.or_true]⟩
    unfold intToChars
    rw [if_neg hi]
    exact heq

theorem stringify_head (j : Json) : ∃ c t, jsonStringifyChars j = c :: t ∧
    isJsonWs c = false ∧ c ≠ ']' ∧ c ≠ '\x7d' := by
  cases j with
  | null => exact ⟨'n', ['u', 'l', 'l'], rfl, by decide, by decide, by decide⟩
  | bool b =>
    cases b with
    | true => exact ⟨'t', ['r', 'u', 'e'], rfl, by decide, by decide, by decide⟩
    | false => exact ⟨'f', ['a', 'l', 's', 'e'], rfl, by decide, by decide, by decide⟩
  | num i =>
    obtain ⟨c, t, heq, hws, hbr, hbc, _⟩ := intToChars_head i
    exact ⟨c, t, heq, hws, hbr, hbc⟩
  | str s =>
    exact ⟨'"', s.data.flatMap escapeJsonChar ++ ['"'], rfl, by decide, by decide, by decide⟩
  | arr items =>
    exact ⟨'[', stringifyItemsChars items ++ [']'], rfl, by decide, by decide, by decide⟩
  | obj fields =>
    exact ⟨'\x7b', stringifyFieldsChars fields ++ ['\x7d'], rfl, by decide, by decide,
      by decide⟩

set_option maxHeartbeats 800000 in
theorem parseJsonValue_arr (fuel : Nat) (t t2 : List Char) (c : Char)
    (h : skipJsonWs t = c :: t2) (hc : c ≠ ']') :
    parseJsonValue (fuel + 1) ('[' :: t)
      = (parseItemsLoop fuel (c :: t2)).map (fun p => (Json.arr p.1, p.2)) := by
  rw [show parseJsonValue (fuel + 1) ('[' :: t)
    = (match skipJsonWs t with
       | ']' :: rest2 => some (Json.arr [], rest2)
       | cs2 => (parseItemsLoop fuel cs2).map (fun p => (Json.arr p.1, p.2))) from rfl]
  rw [h]
  split
  · next heq =>
    injection heq with hh _
    exact absurd hh hc
  · rfl

set_option maxHeartbeats 800000 in
theorem parseJsonValue_obj (fuel : Nat) (t t2 : List Char) (c : Char)
    (h : skipJsonWs t = c :: t2) (hc : c ≠ '\x7d') :
    parseJsonValue (fuel + 1) ('\x7b' :: t)
      = (parseFieldsLoop fuel (c :: t2)).map
          (fun p => (Json.obj (dedupFields p.1), p.2)) := by
  rw [show parseJsonValue (fuel + 1) ('\x7b' :: t)
    = (match skipJsonWs t with
       | '\x7d' :: rest2 => some (Json.obj [], rest2)
       | cs2 => (parseFieldsLoop fuel cs2).map
           (fun p => (Json.obj (dedupFields p.1), p.2))) from rfl]
  rw [h]
  split
  · next heq =>
    injection heq with hh _
    exact absurd hh hc
  · rfl

theorem setAssoc_fresh {β : Type} (l : List (String × β)) (k : String) (v : β)
    (h : ∀ w ∈ l, (w.1 == k) = false) : setAssoc l k v = l ++ [(k, v)] := by
  induction l with
  | nil => rfl
  | cons w ws ihl =>
    unfold setAssoc
    rw [if_neg (by
      intro hcon
      exact absurd (h w (by simp) ▸ hcon) (by simp))]
    rw [ihl (fun x hx => h x (by simp [hx]))]
    rfl

theorem foldl_setAssoc_fresh : ∀ (fields acc : List (String × Json)),
    (∀ f ∈ fields, ∀ w ∈ acc, (w.1 == f.1) = false) →
    jsonWfFields fields = true →
    fields.foldl (fun a f => setAssoc a f.1 f.2) acc = acc ++ fields
  | [], acc, _, _ => by simp
  | f :: fs, acc, hfresh, hwf => by
    have hwf' := hwf
    unfold jsonWfFields at hwf'
    rw [Bool.and_eq_true, Bool.and_eq_true] at hwf'
    rw [show (f :: fs).foldl (fun a g => setAssoc a g.1 g.2) acc
      = fs.foldl (fun a g => setAssoc a g.1 g.2) (setAssoc acc f.1 f.2) from rfl]
    rw [setAssoc_fresh acc f.1 f.2 (hfresh f (by simp))]
    rw [foldl_setAssoc_fresh fs (acc ++ [(f.1, f.2)]) (by
      intro g hg w hw
      rcases List.mem_append.mp hw with hw1 | hw2
      · exact hfresh g (by simp [hg]) w hw1
      · have hwf2 := hwf'.1.2
        rw [List.all_eq_true] at hwf2
        have := hwf2 g hg
        rw [show w = (f.1, f.2) by simpa using hw2]
        have hne : ¬ g.1 = f.1 := by simpa using this
        simpa using fun h => hne h.symm) hwf'.2]
    simp

theorem dedupFields_wf (fields : List (String × Json)) (hwf : jsonWfFields fields = true) :
    dedupFields fields = fields := by
  unfold dedupFields
  rw [foldl_setAssoc_fresh fields [] (by intro f _ w hw; simp at hw) hwf]
  rfl

theorem needV_pos (j : Json) : 1 ≤ needV j := by
  cases j <;> unfold needV <;> omega

theorem parseItemsLoop_step (fuel : Nat) (cs : List Char) :
    parseItemsLoop (fuel + 1) cs
      = (match parseJsonValue fuel cs with
         | none => none
         | some (v, r1) =>
           match skipJsonWs r1 with
           | ',' :: r2 => (parseItemsLoop fuel r2).map (fun p => (v :: p.1, p.2))
           | ']' :: r2 => some ([v], r2)
           | _ => none) := rfl

set_option maxHeartbeats 1600000 in
theorem parseFieldsLoop_member (fuel : Nat) (k : String) (T : List Char) :
    parseFieldsLoop (fuel + 1) ('"' :: (k.data.flatMap escapeJsonChar ++ '"' :: ':' :: T))
      = (match parseJsonValue fuel T with
         | none => none
         | some (v, r3) =>
           match skipJsonWs r3 with
           | ',' :: r4 => (parseFieldsLoop fuel r4).map (fun p => ((k, v) :: p.1, p.2))
           | '\x7d' :: r4 => some ([(k, v)], r4)
           | _ => none) := by
  rw [show parseFieldsLoop (fuel + 1)
      ('"' :: (k.data.flatMap escapeJsonChar ++ '"' :: ':' :: T))
    = (match parseStrAux (k.data.flatMap escapeJsonChar ++ '"' :: ':' :: T) with
       | none => none
       | some (key, r1) =>
         match skipJsonWs r1 with
         | ':' :: r2 =>
           (match parseJsonValue fuel r2 with
            | none => none
            | some (v, r3) =>
              match skipJsonWs r3 with
              | ',' :: r4 =>
                (parseFieldsLoop fuel r4).map (fun p => ((String.mk key, v) :: p.1, p.2))
              | '\x7d' :: r4 => some ([(String.mk key, v)], r4)
              | _ => none)
         | _ => none) from rfl]
  rw [parseStrAux_escape k.data (':' :: T)]
  rfl

set_option maxHeartbeats 3200000 in
theorem parse_stringify_mutual : ∀ fuel : Nat,
    (∀ j rest, jsonWf j = true → sepOk rest = true → needV j ≤ fuel →
      parseJsonValue fuel (jsonStringifyChars j ++ rest) = some (j, rest)) ∧
    (∀ x xs rest, jsonWfItems (x :: xs) = true → needI (x :: xs) ≤ fuel →
      parseItemsLoop fuel (stringifyItemsChars (x :: xs) ++ ']' :: rest)
        = some (x :: xs, rest)) ∧
    (∀ f fs rest, jsonWfFields (f :: fs) = true → needF (f :: fs) ≤ fuel →
      parseFieldsLoop fuel (stringifyFieldsChars (f :: fs) ++ '\x7d' :: rest)
        = some (f :: fs, rest)) := by
  intro fuel
  induction fuel with
  | zero =>
    refine ⟨fun j rest _ _ hneed => ?_, fun x xs rest _ hneed => ?_,
      fun f fs rest _ hneed => ?_⟩
    · exact absurd hneed (by have := needV_pos j; omega)
    · exact absurd hneed (by unfold needI; omega)
    · exact absurd hneed (by unfold needF; omega)
  | succ fuel ih =>
    obtain ⟨ihV, ihI, ihF⟩ := ih
    refine ⟨fun j rest hwf hsep hneed => ?_, fun x xs rest hwf hneed => ?_,
      fun f fs rest hwf hneed => ?_⟩
    · cases j with
      | null => rfl
      | bool b => cases b <;> rfl
      | num i =>
        obtain ⟨c, t, hct, hws, _, _, hn, ht, hf, hq, hbr, hbc, hdig⟩ := intToChars_head i
        rw [show jsonStringifyChars (Json.num i) = intToChars i from rfl, hct,
          List.cons_append]
        rw [parseJsonValue_not_special fuel c (t ++ rest) hws hn ht hf hq hbr hbc]
        rw [if_pos hdig]
        rw [show c :: (t ++ rest) = intToChars i ++ rest by rw [hct]; rfl]
        rw [parseJsonNumber_intToChars i rest (sepOk_not_digit rest hsep)]
        rfl
      | str s =>
        rw [show jsonStringifyChars (Json.str s) ++ rest
          = '"' :: (s.data.flatMap escapeJsonChar ++ '"' :: rest) by
          rw [show jsonStringifyChars (Json.str s)
            = '"' :: (s.data.flatMap escapeJsonChar ++ ['"']) from rfl]
          rw [List.cons_append, List.append_assoc]
          rfl]
        rw [show parseJsonValue (fuel + 1)
            ('"' :: (s.data.flatMap escapeJsonChar ++ '"' :: rest))
          = (parseStrAux (s.data.flatMap escapeJsonChar ++ '"' :: rest)).map
              (fun p => (Json.str (String.mk p.1), p.2)) from rfl]
        rw [parseStrAux_escape s.data rest]
        rfl
      | arr items =>
        cases items with
        | nil => rfl
        | cons x xs =>
          have hneedI : needI (x :: xs) ≤ fuel := by
            unfold needV at hneed
            omega
          have hwfI : jsonWfItems (x :: xs) = true := by
            unfold jsonWf at hwf
            exact hwf
          obtain ⟨c, t, hct, hws, hbr, _⟩ := stringify_head x
          have hhd : ∃ c2 t2, stringifyItemsChars (x :: xs) = c2 :: t2 ∧
              isJsonWs c2 = false ∧ c2 ≠ ']' := by
            cases xs with
            | nil => exact ⟨c, t, hct, hws, hbr⟩
            | cons y ys =>
              refine ⟨c, t ++ ',' :: stringifyItemsChars (y :: ys), ?_, hws, hbr⟩
              rw [show stringifyItemsChars (x :: y :: ys)
                = jsonStringifyChars x ++ ',' :: stringifyItemsChars (y :: ys) from rfl]
              rw [hct]
              rfl
          obtain ⟨c2, t2, hct2, hws2, hbr2⟩ := hhd
          rw [show jsonStringifyChars (Json.arr (x :: xs)) ++ rest
            = '[' :: (stringifyItemsChars (x :: xs) ++ ']' :: rest) by
            rw [show jsonStringifyChars (Json.arr (x :: xs))
              = '[' :: (stringifyItemsChars (x :: xs) ++ [']']) from rfl]
            rw [List.cons_append, List.append_assoc]
            rfl]
          rw [parseJsonValue_arr fuel _ (t2 ++ ']' :: rest) c2 (by
            rw [hct2, List.cons_append]
            exact skipJsonWs_cons c2 _ hws2) hbr2]
          rw [show c2 :: (t2 ++ ']' :: rest)
            = stringifyItemsChars (x :: xs) ++ ']' :: rest by rw [hct2]; rfl]
          rw [ihI x xs rest hwfI hneedI]
          rfl
      | obj fields =>
        cases fields with
        | nil => rfl
        | cons f fs =>
          have hneedF : needF (f :: fs) ≤ fuel := by
            unfold needV at hneed
            omega
          have hwfF : jsonWfFields (f :: fs) = true := by
            unfold jsonWf at hwf
            exact hwf
          rw [show jsonStringifyChars (Json.obj (f :: fs)) ++ rest
            = '\x7b' :: (stringifyFieldsChars (f :: fs) ++ '\x7d' :: rest) by
            rw [show jsonStringifyChars (Json.obj (f :: fs))
              = '\x7b' :: (stringifyFieldsChars (f :: fs) ++ ['\x7d']) from rfl]
            rw [List.cons_append, List.append_assoc]
            rfl]
          have hfhd : ∃ t2, stringifyFieldsChars (f :: fs) = '"' :: t2 := by
            cases fs with
            | nil =>
              exact ⟨(f.1.data.flatMap escapeJsonChar ++ ['"'])
                ++ ':' :: jsonStringifyChars f.2, rfl⟩
            | cons g gs =>
              exact ⟨(f.1.data.flatMap escapeJsonChar ++ ['"'])
                ++ ':' :: jsonStringifyChars f.2
                ++ ',' :: stringifyFieldsChars (g :: gs), rfl⟩
          obtain ⟨t2, hct2⟩ := hfhd
          rw [parseJsonValue_obj fuel _ (t2 ++ '\x7d' :: rest) '"' (by
            rw [hct2, List.cons_append]
            exact skipJsonWs_cons '"' _ (by decide)) (by decide)]
          rw [show '"' :: (t2 ++ '\x7d' :: rest)
            = stringifyFieldsChars (f :: fs) ++ '\x7d' :: rest by rw [hct2]; rfl]
          rw [ihF f fs rest hwfF hneedF]
          simp only [Option.map_some']
          rw [dedupFields_wf (f :: fs) hwfF]
    · have hwfx : jsonWf x = true := by
        unfold jsonWfItems at hwf
        rw [Bool.and_eq_true] at hwf
        exact hwf.1
      have hwfxs : jsonWfItems xs = true := by
        unfold jsonWfItems at hwf
        rw [Bool.and_eq_true] at hwf
        exact hwf.2
      cases xs with
      | nil =>
        have hneedx : needV x ≤ fuel := by
          unfold needI needI at hneed
          omega
        rw [show stringifyItemsChars [x] ++ ']' :: rest
          = jsonStringifyChars x ++ ']' :: rest from rfl]
        rw [parseItemsLoop_step fuel]
        rw [ihV x (']' :: rest) hwfx rfl hneedx]
        rfl
      | cons y ys =>
        have hneedx : needV x ≤ fuel := by
          unfold needI at hneed
          omega
        have hneedys : needI (y :: ys) ≤ fuel := by
          unfold needI at hneed
          omega
        rw [show stringifyItemsChars (x :: y :: ys) ++ ']' :: rest
          = jsonStringifyChars x
            ++ ',' :: (stringifyItemsChars (y :: ys) ++ ']' :: rest) by
          rw [show stringifyItemsChars (x :: y :: ys)
            = jsonStringifyChars x ++ ',' :: stringifyItemsChars (y :: ys) from rfl]
          rw [List.append_assoc]
          rfl]
        rw [parseItemsLoop_step fuel]
        rw [ihV x (',' :: (stringifyItemsChars (y :: ys) ++ ']' :: rest)) hwfx rfl hneedx]
        dsimp only
        rw [show skipJsonWs (',' :: (stringifyItemsChars (y :: ys) ++ ']' :: rest))
          = ',' :: (stringifyItemsChars (y :: ys) ++ ']' :: rest) from rfl]
        rw [show (match (',' :: (stringifyItemsChars (y :: ys) ++ ']' :: rest) : List Char)
            with
          | ',' :: r2 => (parseItemsLoop fuel r2).map (fun p => (x :: p.1, p.2))
          | ']' :: r2 => some ([x], r2)
          | _ => none)
          = (parseItemsLoop fuel (stringifyItemsChars (y :: ys) ++ ']' :: rest)).map
              (fun p => (x :: p.1, p.2)) from rfl]
        rw [ihI y ys rest hwfxs hneedys]
        rfl
    · have hwfv : jsonWf f.2 = true := by
        unfold jsonWfFields at hwf
        rw [Bool.and_eq_true, Bool.and_eq_true] at hwf
        exact hwf.1.1
      have hwffs : jsonWfFields fs = true := by
        unfold jsonWfFields at hwf
        rw [Bool.and_eq_true, Bool.and_eq_true] at hwf
        exact hwf.2
      cases fs with
      | nil =>
        have hneedv : needV f.2 ≤ fuel := by
          unfold needF needF at hneed
          omega
        rw [show stringifyFieldsChars [f] ++ '\x7d' :: rest
          = '"' :: (f.1.data.flatMap escapeJsonChar
            ++ '"' :: ':' :: (jsonStringifyChars f.2 ++ '\x7d' :: rest)) by
          rw [show stringifyFieldsChars [f]
            = quoteJsonString f.1 ++ ':' :: jsonStringifyChars f.2 from rfl]
          rw [show quoteJsonString f.1
            = '"' :: (f.1.data.flatMap escapeJsonChar ++ ['"']) from rfl]
          simp only [List.cons_append, List.append_assoc, List.singleton_append,
            List.nil_append]]
        rw [parseFieldsLoop_member fuel f.1
          (jsonStringifyChars f.2 ++ '\x7d' :: rest)]
        rw [ihV f.2 ('\x7d' :: rest) hwfv rfl hneedv]
        rfl
      | cons g gs =>
        have hneedv : needV f.2 ≤ fuel := by
          unfold needF at hneed
          omega
        have hneedgs : needF (g :: gs) ≤ fuel := by
          unfold needF at hneed
          omega
        rw [show stringifyFieldsChars (f :: g :: gs) ++ '\x7d' :: rest
          = '"' :: (f.1.data.flatMap escapeJsonChar
            ++ '"' :: ':' :: (jsonStringifyChars f.2
              ++ ',' :: (stringifyFieldsChars (g :: gs) ++ '\x7d' :: rest))) by
          rw [show stringifyFieldsChars (f :: g :: gs)
            = quoteJsonString f.1 ++ ':' :: jsonStringifyChars f.2
              ++ ',' :: stringifyFieldsChars (g :: gs) from rfl]
          rw [show quoteJsonString f.1
            = '"' :: (f.1.data.flatMap escapeJsonChar ++ ['"']) from rfl]
          simp only [List.cons_append, List.append_assoc, List.singleton_append,
            List.nil_append]]
        rw [parseFieldsLoop_member fuel f.1
          (jsonStringifyChars f.2
            ++ ',' :: (stringifyFieldsChars (g :: gs) ++ '\x7d' :: rest))]
        rw [ihV f.2 (',' :: (stringifyFieldsChars (g :: gs) ++ '\x7d' :: rest))
          hwfv rfl hneedv]
        dsimp only
        rw [show skipJsonWs (',' :: (stringifyFieldsChars (g :: gs) ++ '\x7d' :: rest))
          = ',' :: (stringifyFieldsChars (g :: gs) ++ '\x7d' :: rest) from rfl]
        rw [show (match (',' :: (stringifyFieldsChars (g :: gs)
              ++ '\x7d' :: rest) : List Char) with
          | ',' :: r4 => (parseFieldsLoop fuel r4).map (fun p => ((f.1, f.2) :: p.1, p.2))
          | '\x7d' :: r4 => some ([(f.1, f.2)], r4)
          | _ => none)
          = (parseFieldsLoop fuel (stringifyFieldsChars (g :: gs) ++ '\x7d' :: rest)).map
              (fun p => ((f.1, f.2) :: p.1, p.2)) from rfl]
        rw [ihF g gs rest hwffs hneedgs]
        rfl

theorem natToDigitsAux_len_pos : ∀ fuel n, 0 < fuel → 0 < (natToDigitsAux fuel n).length := by
  intro fuel n h
  cases fuel with
  | zero => omega
  | succ fuel =>
    unfold natToDigitsAux
    by_cases hn : n < 10
    · rw [if_pos hn]
      simp
    · rw [if_neg hn]
      simp

theorem intToChars_len_pos (i : Int) : 0 < (intToChars i).length := by
  unfold intToChars
  by_cases hi : i < 0
  · rw [if_pos hi]
    simp
  · rw [if_neg hi]
    exact natToDigitsAux_len_pos _ _ (by omega)

mutual

theorem needV_le_len : ∀ j : Json, needV j ≤ (jsonStringifyChars j).length
  | .null => by simp [needV, jsonStringifyChars]
  | .bool b => by cases b <;> simp [needV, jsonStringifyChars]
  | .num i => by
    have h := intToChars_len_pos i
    simp only [needV, jsonStringifyChars]
    omega
  | .str s => by
    simp only [needV, jsonStringifyChars, quoteJsonString, List.length_cons]
    omega
  | .arr items => by
    have h := needI_le_len items
    simp only [needV, jsonStringifyChars, List.length_cons, List.length_append]
    omega
  | .obj fields => by
    have h := needF_le_len fields
    simp only [needV, jsonStringifyChars, List.length_cons, List.length_append]
    omega

theorem needI_le_len : ∀ items : List Json, needI items ≤ (stringifyItemsChars items).length + 1
  | [] => by simp [needI, stringifyItemsChars]
  | [x] => by
    have h := needV_le_len x
    simp only [needI, stringifyItemsChars]
    omega
  | x :: y :: ys => by
    have h1 := needV_le_len x
    have h2 := needI_le_len (y :: ys)
    rw [show needI (x :: y :: ys) = 1 + max (needV x) (needI (y :: ys)) from rfl]
    rw [show stringifyItemsChars (x :: y :: ys)
      = jsonStringifyChars x ++ ',' :: stringifyItemsChars (y :: ys) from rfl]
    simp only [List.length_append, List.length_cons]
    omega

theorem needF_le_len : ∀ fields : List (String × Json),
    needF fields ≤ (stringifyFieldsChars fields).length + 1
  | [] => by simp [needF, stringifyFieldsChars]
  | [f] => by
    have h := needV_le_len f.2
    simp only [needF, stringifyFieldsChars, List.length_append, List.length_cons]
    omega
  | f :: g :: gs => by
    have h1 := needV_le_len f.2
    have h2 := needF_le_len (g :: gs)
    rw [show needF (f :: g :: gs) = 1 + max (needV f.2) (needF (g :: gs)) from rfl]
    rw [show stringifyFieldsChars (f :: g :: gs)
      = quoteJsonString f.1 ++ ':' :: jsonStringifyChars f.2
        ++ ',' :: stringifyFieldsChars (g :: gs) from rfl]
    simp only [List.length_append, List.length_cons]
    omega

end

theorem jsonParse_stringify (j : Json) (hwf : jsonWf j = true) :
    jsonParse (jsonStringify j) = some j := by
  unfold jsonParse jsonStringify
  have hb := needV_le_len j
  have hkey := (parse_stringify_mutual ((jsonStringifyChars j).length + 1)).1 j [] hwf rfl
    (by omega)
  rw [List.append_nil] at hkey
  rw [show (String.mk (jsonStringifyChars j)).data = jsonStringifyChars j from rfl]
  dsimp only
  rw [hkey]
  rfl

theorem wfItems_map_num : ∀ l : List Int, jsonWfItems (l.map Json.num) = true
  | [] => rfl
  | x :: xs => by
    show jsonWfItems (Json.num x :: xs.map Json.num) = true
    unfold jsonWfItems
    rw [Bool.and_eq_true]
    exact ⟨rfl, wfItems_map_num xs⟩

theorem wfFields_scores : ∀ scores : List (String × Int), (scores.map Prod.fst).Nodup →
    jsonWfFields (scores.map (fun e => (e.1, Json.num e.2))) = true
  | [], _ => rfl
  | e :: es, h => by
    have hnd : ¬ e.1 ∈ es.map Prod.fst ∧ (es.map Prod.fst).Nodup := by
      simpa using h
    show jsonWfFields ((e.1, Json.num e.2)
      :: es.map (fun e => (e.1, Json.num e.2))) = true
    unfold jsonWfFields
    rw [Bool.and_eq_true, Bool.and_eq_true]
    refine ⟨⟨rfl, ?_⟩, wfFields_scores es hnd.2⟩
    rw [List.all_eq_true]
    intro g hg
    obtain ⟨w, hw, rfl⟩ := List.mem_map.mp hg
    have hmem : w.1 ∈ es.map Prod.fst := List.mem_map.mpr ⟨w, hw, rfl⟩
    have hne : ¬ w.1 = e.1 := fun hcon => hnd.1 (hcon ▸ hmem)
    simpa using hne

theorem sharedToJson_wf (p : SharedStateV1) (h : (p.scores.map Prod.fst).Nodup) :
    jsonWf (sharedToJson p) = true := by
  unfold sharedToJson jsonWf
  unfold jsonWfFields
  rw [Bool.and_eq_true, Bool.and_eq_true]
  refine ⟨⟨rfl, rfl⟩, ?_⟩
  unfold jsonWfFields
  rw [Bool.and_eq_true, Bool.and_eq_true]
  refine ⟨⟨rfl, rfl⟩, ?_⟩
  unfold jsonWfFields
  rw [Bool.and_eq_true, Bool.and_eq_true]
  refine ⟨⟨?_, rfl⟩, ?_⟩
  · exact wfFields_scores p.scores h
  · unfold jsonWfFields
    rw [Bool.and_eq_true, Bool.and_eq_true]
    exact ⟨⟨wfItems_map_num p.answers, rfl⟩, rfl⟩

theorem bytesToSextets_ne_nil (a : Nat) (rest : List Nat) :
    bytesToSextets (a :: rest) ≠ [] := by
  cases rest with
  | nil => simp [bytesToSextets]
  | cons b rest2 =>
    cases rest2 with
    | nil => simp [bytesToSextets]
    | cons c rest3 => simp [bytesToSextets]

theorem roundTripShareState_eq (p : SharedStateV1)
    (hkeys : (p.scores.map Prod.fst).Nodup)
    (hlatin : ∀ c ∈ (jsonStringify (sharedToJson p)).data, c.toNat < 256) :
    roundTripShareState p = some (sharedToJson p) := by
  unfold roundTripShareState encodeShareState
  rw [toBase64Url_eq _ hlatin]
  rw [Option.some_bind]
  unfold decodeShareState
  dsimp only
  have hne : String.mk (((bytesToSextets ((jsonStringify
      (sharedToJson p)).data.map Char.toNat)).map b64CharOfNat).map stdToUrlChar) ≠ "" := by
    intro hcon
    have hdata : (((bytesToSextets ((jsonStringify
        (sharedToJson p)).data.map Char.toNat)).map b64CharOfNat).map stdToUrlChar)
        = [] := by
      have := congrArg String.data hcon
      simpa using this
    rw [List.map_eq_nil_iff, List.map_eq_nil_iff] at hdata
    have hjs : (jsonStringify (sharedToJson p)).data
        = '\x7b' :: (stringifyFieldsChars [("v", Json.num 1),
            ("resultId", Json.str p.resultId),
            ("scores", Json.obj (p.scores.map (fun e => (e.1, Json.num e.2)))),
            ("answers", Json.arr (p.answers.map Json.num))] ++ ['\x7d']) := rfl
    rw [hjs] at hdata
    exact bytesToSextets_ne_nil _ _ hdata
  rw [if_neg (by simpa using hne)]
  rw [fromBase64Url_toBase64Url _ hlatin]
  rw [Option.some_bind]
  rw [jsonParse_stringify (sharedToJson p) (sharedToJson_wf p hkeys)]
  rfl

theorem map_num_inj : ∀ l1 l2 : List Int, l1.map Json.num = l2.map Json.num → l1 = l2
  | [], [], _ => rfl
  | [], _ :: _, h => by simp at h
  | _ :: _, [], h => by simp at h
  | x :: xs, y :: ys, h => by
    simp only [List.map_cons, List.cons.injEq] at h
    have hx : x = y := by injection h.1
    rw [hx, map_num_inj xs ys h.2]

theorem map_scores_inj : ∀ l1 l2 : List (String × Int),
    l1.map (fun e => (e.1, Json.num e.2)) = l2.map (fun e => (e.1, Json.num e.2)) →
    l1 = l2
  | [], [], _ => rfl
  | [], _ :: _, h => by simp at h
  | _ :: _, [], h => by simp at h
  | x :: xs, y :: ys, h => by
    simp only [List.map_cons, List.cons.injEq, Prod.mk.injEq] at h
    have hx2 : x.2 = y.2 := by injection h.1.2
    have hx : x = y := Prod.ext h.1.1 hx2
    rw [hx, map_scores_inj xs ys h.2]

theorem sharedToJson_inj (p q : SharedStateV1) (h : sharedToJson p = sharedToJson q) :
    p = q := by
  unfold sharedToJson at h
  simp only [Json.obj.injEq, List.cons.injEq, Prod.mk.injEq, Json.str.injEq,
    Json.arr.injEq, true_and, and_true] at h
  obtain ⟨hr, hs, ha⟩ := h
  cases p
  cases q
  simp only [SharedStateV1.mk.injEq]
  exact ⟨hr, map_scores_inj _ _ hs, map_num_inj _ _ ha⟩

/-- **C3** (counterexample to the claim as stated): the versioned round trip is
not total on valid `v = 1` payloads — a `resultId` containing a character
above U+00FF (here `'☃'`, U+2603) survives `JSON.stringify` but makes `btoa`
throw inside `encodeShareState`, so no encoded value is ever produced. -/
theorem c3_roundtrip_throws_outside_latin1 :
    roundTripShareState ⟨String.mk [Char.ofNat 9731], [], []⟩ = none := by rfl

/-- **C3** (amended): for every `SharedStateV1` payload whose score keys are
distinct and whose `JSON.stringify` serialization stays within Latin-1 (the
domain on which `btoa` does not throw), decoding the encoded share state
returns exactly the JSON value of the original payload — and that JSON value
determines the payload uniquely, so the round trip is the identity.  No score
normalization happens on either side of the versioned codec. -/
theorem c3_versioned_roundtrip (p : SharedStateV1)
    (hkeys : (p.scores.map Prod.fst).Nodup)
    (hlatin : ∀ c ∈ (jsonStringify (sharedToJson p)).data, c.toNat < 256) :
    roundTripShareState p = some (sharedToJson p) ∧
    ∀ q : SharedStateV1, sharedToJson q = sharedToJson p → q = p :=
  ⟨roundTripShareState_eq p hkeys hlatin, fun q hq => sharedToJson_inj q p hq⟩

theorem c3_versioned_roundtrip_witness :
    roundTripShareState ⟨"potion_calm", [("calm", 3), ("bold", -2)], [0, 1]⟩
      = some (sharedToJson ⟨"potion_calm", [("calm", 3), ("bold", -2)], [0, 1]⟩) :=
  (c3_versioned_roundtrip ⟨"potion_calm", [("calm", 3), ("bold", -2)], [0, 1]⟩
    (by decide) (by decide)).1
